import Mathlib

/-!
Verification of the `nextinspace` boxed text-layout renderer
(`src/nextinspace/space.py`) against its natural-language specification.

Python strings are modelled as `List Char` (one element per code point, so
`List.length` agrees with Python `len`).  The renderer's output is modelled as
the list of printed lines, in order.  External library behaviour is embedded
faithfully where the layout depends on it:

* `str.ljust` / `str.center` follow CPython's padding arithmetic
  (`left = marg // 2 + (marg & width & 1)` for `center`);
* `textwrap.wrap` is embedded following CPython's `TextWrapper` with the
  default options used by the renderer (`expand_tabs`, `replace_whitespace`,
  `drop_whitespace`, `break_long_words`, `break_on_hyphens` all true,
  `tabsize = 8`, `max_lines = None`), including `_munge_whitespace`, the
  `wordsep_re` chunk splitter and `_wrap_chunks` / `_handle_long_word`;
* the `colorama` style constants are the ANSI SGR escape strings they
  expand to on a POSIX terminal.

`datetime.strftime` results are opaque to the layout logic, so date fields
are modelled by the already-formatted string they render to.
-/

namespace Nextinspace

/-- Python strings modelled as lists of code points. -/
abbrev Str := List Char

/-- Layout constant `MAX_LINE_LENGTH = 88` (space.py line 10). -/
def MAX_LINE_LENGTH : Nat := 88

/-- Layout constant `CHART_WIDTH = 59` (space.py line 11). -/
def CHART_WIDTH : Nat := 59

/-- Python `str.ljust(w, " ")`: pad on the right with spaces up to width `w`;
a string already at least `w` long is returned unchanged. -/
def ljust (s : Str) (w : Nat) : Str :=
  s ++ List.replicate (w - s.length) ' '

/-- Python `str.center(w, " ")` following CPython's arithmetic: with
`marg = w - len s`, the left padding is `marg / 2` plus one extra space
when both `marg` and `w` are odd; a string at least `w` long is returned
unchanged. -/
def center (s : Str) (w : Nat) : Str :=
  if w ≤ s.length then s
  else
    let marg := w - s.length
    let left := marg / 2 + (if marg % 2 = 1 ∧ w % 2 = 1 then 1 else 0)
    List.replicate left ' ' ++ s ++ List.replicate (marg - left) ' '

/-- The characters of Python `string.whitespace`, the whitespace set used by
`textwrap` (`_whitespace = "\t\n\x0b\x0c\r "`). -/
def isWrapWS (c : Char) : Bool :=
  c = ' ' || c = '\t' || c = '\n' || c = '\x0b' || c = '\x0c' || c = '\r'

/-- Python `\w` on the renderer's (ASCII) data: alphanumeric or underscore. -/
def isWordChar (c : Char) : Bool := c.isAlphanum || c = '_'

/-- The `letter` class `[^\d\W]` of `textwrap.wordsep_re`: a word character
that is not a digit. -/
def isLetterChar (c : Char) : Bool := c.isAlpha || c = '_'

/-- The `word_punct` class of `textwrap.wordsep_re`. -/
def isWordPunct (c : Char) : Bool :=
  isWordChar c || c = '!' || c = '"' || c = '\'' || c = '&' || c = '.' ||
    c = ',' || c = '?'

/-- Column-tracking tab expansion, `str.expandtabs(8)`: a tab becomes spaces
up to the next multiple of 8; the column resets after `\n` and `\r`. -/
def expandtabs : Str → Nat → Str
  | [], _ => []
  | c :: t, col =>
    if c = '\t' then
      let pad := 8 - col % 8
      List.replicate pad ' ' ++ expandtabs t (col + pad)
    else if c = '\n' ∨ c = '\r' then c :: expandtabs t 0
    else c :: expandtabs t (col + 1)

/-- The `unicode_whitespace_trans` translation: every `textwrap` whitespace
character becomes a plain space. -/
def replaceWS (t : Str) : Str :=
  t.map (fun c => if isWrapWS c then ' ' else c)

/-- `TextWrapper._munge_whitespace`: expand tabs, then replace the remaining
whitespace characters by spaces. -/
def munge (t : Str) : Str := replaceWS (expandtabs t 0)

/-- Length of the leading run of `'-'` characters. -/
def hyphenRun : Str → Nat
  | '-' :: t => hyphenRun t + 1
  | _ => 0

/-- The em-dash alternative of `wordsep_re`: `(?<=word_punct) -{2,} (?=\w)`,
checked with `prev` the reversed text before the current position. -/
def emDashAt (prev rest : Str) : Bool :=
  match prev with
  | [] => false
  | p :: _ =>
    isWordPunct p &&
      (let n := hyphenRun rest
       decide (2 ≤ n) &&
         (match rest.drop n with
          | c :: _ => isWordChar c
          | [] => false))

/-- The hyphenated-word break of `wordsep_re`: after consuming the hyphen `c`
the lookbehind window (reversed) must start `- lt lt` or `- lt - lt`, and the
lookahead must be `lt -? lt`. -/
def hyphenBreak (consumedRev : Str) (c : Char) (rest : Str) : Bool :=
  c = '-' &&
    (match consumedRev with
     | a :: b :: _ => (isLetterChar a && isLetterChar b) ||
         (isLetterChar a &&
           (match consumedRev with
            | _ :: '-' :: d :: _ => isLetterChar d
            | _ => false))
     | _ => false) &&
    (match rest with
     | d :: rest' =>
       isLetterChar d &&
         (match rest' with
          | e :: _ => isLetterChar e ||
              (e = '-' && (match rest' with
                           | _ :: f :: _ => isLetterChar f
                           | _ => false))
          | [] => false)
     | [] => false)

/-- Scanning the non-greedy word alternative of `wordsep_re`: starting from a
reversed already-consumed part `acc` (nonempty) with `prev` the reversed text
before the word, consume characters until one of the three stop conditions
fires, in the regex's alternation order (hyphenated break, end of word,
em-dash lookahead).  Returns the reversed word and the remaining text. -/
def scanWord (acc prev : Str) : Str → Str × Str
  | [] => (acc, [])
  | c :: rest =>
    if hyphenBreak (acc ++ prev) c rest then (c :: acc, rest)
    else if isWrapWS c then (acc, c :: rest)
    else if (match acc ++ prev with
             | p :: _ => isWordPunct p
             | [] => false) &&
            decide (2 ≤ hyphenRun (c :: rest)) &&
            (match (c :: rest).drop (hyphenRun (c :: rest)) with
             | d :: _ => isWordChar d
             | [] => false) then (acc, c :: rest)
    else scanWord (c :: acc) prev rest

/-- `TextWrapper._split` (the `wordsep_re` splitter) as a fuelled scanner:
whitespace runs, em-dash runs and words become chunks, in regex alternation
order.  The fuel is the length of the remaining text (each step consumes at
least one character). -/
def splitLoop : Nat → Str → Str → List Str → List Str
  | 0, _, _, acc => acc.reverse
  | _ + 1, _, [], acc => acc.reverse
  | fuel + 1, prev, c :: rest, acc =>
    if isWrapWS c then
      let run := c :: rest.takeWhile isWrapWS
      let rest' := rest.dropWhile isWrapWS
      splitLoop fuel (run.reverse ++ prev) rest' (run :: acc)
    else if emDashAt prev (c :: rest) then
      let n := hyphenRun (c :: rest)
      let run := List.replicate n '-'
      splitLoop fuel (run.reverse ++ prev) ((c :: rest).drop n) (run :: acc)
    else
      let s := scanWord [c] prev rest
      splitLoop fuel (s.1 ++ prev) s.2 (s.1.reverse :: acc)

/-- The chunk list of a munged text. -/
def splitChunks (t : Str) : List Str := splitLoop t.length [] t []

/-- A chunk of text produced by the splitter. -/
abbrev Chunk := Str

/-- Python `chunk.strip() == ''` on the renderer's data: every character is
whitespace (true for the empty chunk). -/
def chunkBlank (c : Chunk) : Bool := c.all isWrapWS

/-- Sum of the chunk lengths. -/
def sumLens (cs : List Chunk) : Nat := (cs.map List.length).sum

/-- Termination measure for `_wrap_chunks`: total characters plus chunk
count. -/
def chunkMeasure (cs : List Chunk) : Nat := sumLens cs + cs.length

/-- The leading `del chunks[-1]` of `_wrap_chunks`: with `drop_whitespace`
set, an all-whitespace chunk at the front is dropped once at least one line
has been emitted (`started`). -/
def dropLeadingWS (started : Bool) : List Chunk → List Chunk
  | [] => []
  | c :: rest => if started && chunkBlank c then rest else c :: rest

/-- The greedy inner loop of `_wrap_chunks`: pull chunks while
`cur_len + len(chunk) <= width`.  Returns the chunks taken, the resulting
`cur_len`, and the remaining chunks. -/
def greedyPull (w : Nat) (curLen : Nat) : List Chunk → List Chunk × Nat × List Chunk
  | [] => ([], curLen, [])
  | c :: rest =>
    if curLen + c.length ≤ w then
      let r := greedyPull w (curLen + c.length) rest
      (c :: r.1, r.2.1, r.2.2)
    else ([], curLen, c :: rest)

/-- Python `chunk.rfind('-', 0, e)`: the largest index `< e` holding `'-'`,
if any. -/
def rfindHyphen (c : Chunk) (e : Nat) : Option Nat :=
  ((c.take e).reverse.findIdx? (fun d => d == '-')).map
    (fun j => (c.take e).length - 1 - j)

/-- The index at which `TextWrapper._handle_long_word` cuts a long chunk
(with `break_long_words` and `break_on_hyphens` both set): the available
space on the line, or just after the last hyphen inside that space when the
hyphen has a non-hyphen character before it. -/
def longWordEnd (w curLen : Nat) (chunk : Chunk) : Nat :=
  let spaceLeft := if w < 1 then 1 else w - curLen
  if spaceLeft < chunk.length then
    match rfindHyphen chunk spaceLeft with
    | some h =>
      if 0 < h ∧ (chunk.take h).any (fun d => d != '-') then h + 1
      else spaceLeft
    | none => spaceLeft
  else spaceLeft

/-- `TextWrapper._handle_long_word`: split the chunk at `longWordEnd`,
returning the piece for the current line and the remainder. -/
def handleLongWord (w curLen : Nat) (chunk : Chunk) : Chunk × Chunk :=
  (chunk.take (longWordEnd w curLen chunk), chunk.drop (longWordEnd w curLen chunk))

/-- The long-word step of `_wrap_chunks`: when the next chunk is longer than
the line width, break it with `handleLongWord`. -/
def addLongWord (w curLen : Nat) (taken : List Chunk) :
    List Chunk → List Chunk × List Chunk
  | [] => (taken, [])
  | c :: rest =>
    if w < c.length then
      let p := handleLongWord w curLen c
      (taken ++ [p.1], p.2 :: rest)
    else (taken, c :: rest)

/-- The trailing `del cur_line[-1]` of `_wrap_chunks`: with `drop_whitespace`
set, drop the final chunk of the current line when it is all whitespace. -/
def dropTrailingWS (cl : List Chunk) : List Chunk :=
  match cl.getLast? with
  | some last => if chunkBlank last then cl.dropLast else cl
  | none => cl

/-- One iteration of the `_wrap_chunks` loop: compute the indent and
effective width, optionally drop leading whitespace, pull chunks greedily,
break a long word, drop trailing whitespace, and emit the line (if any)
together with the remaining chunks. -/
def nextLine (started : Bool) (width : Nat) (ii si : Str)
    (chunks : List Chunk) : Option Str × List Chunk :=
  let indent := if started then si else ii
  let w := width - indent.length
  let chunks1 := dropLeadingWS started chunks
  let g := greedyPull w 0 chunks1
  let a := addLongWord w g.2.1 g.1 g.2.2
  let curLine := dropTrailingWS a.1
  (if curLine.isEmpty then none else some (indent ++ curLine.flatten), a.2)

/-- The fuelled `_wrap_chunks` loop: emit lines until the chunks run out.
`started` records whether a line has been emitted (Python's `if lines:`). -/
def wrapChunksLoop (width : Nat) (ii si : Str) :
    Nat → Bool → List Chunk → List Str
  | 0, _, _ => []
  | _ + 1, _, [] => []
  | fuel + 1, started, c :: cs =>
    let r := nextLine started width ii si (c :: cs)
    match r.1 with
    | some l => l :: wrapChunksLoop width ii si fuel true r.2
    | none => wrapChunksLoop width ii si fuel started r.2

/-- `textwrap.wrap(text, width, initial_indent=ii, subsequent_indent=si)`
with the renderer's (default) options. -/
def wrap (text : Str) (width : Nat) (ii si : Str) : List Str :=
  let chunks := splitChunks (munge text)
  wrapChunksLoop width ii si (chunkMeasure chunks + 1) false chunks

/-! ### colorama constants

The ANSI SGR escape strings the colorama constants used by the renderer
expand to on a POSIX terminal. -/

/-- `colorama.Style.BRIGHT`. -/
def BRIGHT : Str := "\x1b[1m".data

/-- `colorama.Style.RESET_ALL`. -/
def RESET_ALL : Str := "\x1b[0m".data

/-- `colorama.Fore.CYAN`. -/
def CYAN : Str := "\x1b[36m".data

/-- `colorama.Fore.GREEN`. -/
def GREEN : Str := "\x1b[32m".data

/-- `colorama.Fore.RESET`. -/
def FORE_RESET : Str := "\x1b[39m".data

/-! ### The data model and the renderer -/

/-- The `Verbosity` enum (space.py lines 15-20). -/
inductive Verbosity where
  | QUIET
  | NORMAL
  | VERBOSE
deriving DecidableEq

/-- A generic space event (space.py lines 23-31).  `mission_date` holds the
already-formatted `strftime(DATE_FMAT_STR)` rendering of the datetime. -/
structure Event where
  mission_name : Str
  location : Str
  mission_date : Str
  mission_description : Str
  mission_type : Str

/-- The rocket record (space.py lines 128-154).  The numeric fields hold the
`str(...)` rendering the display code produces from them, and
`maiden_flight_date` holds the `strftime("%Y-%m-%d")` rendering of the
date (so arbitrary textual lengths are covered). -/
structure Rocket where
  name : Str
  payload_leo : Str
  payload_gto : Str
  liftoff_thrust : Str
  liftoff_mass : Str
  max_stages : Str
  height : Str
  successful_launches : Str
  consecutive_successful_launches : Str
  failed_launches : Str
  maiden_flight_date : Str

/-- A launch event (space.py lines 75-80): the `Event` fields plus a
rocket.  (The Python `Launch.display` re-implements the event sections, so
the record is embedded with its own copies of the fields.) -/
structure Launch where
  mission_name : Str
  location : Str
  mission_date : Str
  mission_description : Str
  mission_type : Str
  rocket : Rocket

/-- Wrap a line's interior in the box-border glyphs: `"│" + s + "│"`. -/
def borderize (s : Str) : Str := '│' :: s ++ ['│']

/-- A mission-name line (space.py line 43 / 92). -/
def nameLine (line : Str) : Str :=
  borderize (BRIGHT ++ CYAN ++ ljust line MAX_LINE_LENGTH ++ RESET_ALL)

/-- The location line (space.py line 46 / 95). -/
def locationLine (loc : Str) : Str :=
  borderize (CYAN ++ ljust loc MAX_LINE_LENGTH ++ FORE_RESET)

/-- The filler line `"│" + " " * MAX_LINE_LENGTH + "│"` (space.py line 49 /
98). -/
def FILLER : Str := borderize (List.replicate MAX_LINE_LENGTH ' ')

/-- The date line (space.py lines 53-59 / 102-108). -/
def dateLine (d : Str) : Str :=
  borderize (GREEN ++ ljust ("    ".data ++ d) MAX_LINE_LENGTH ++ FORE_RESET)

/-- The event mission-type line (space.py line 62). -/
def eventTypeLine (t : Str) : Str :=
  borderize (ljust ("    Event Type: ".data ++ t) MAX_LINE_LENGTH)

/-- The launch mission-type line (space.py line 111). -/
def launchTypeLine (t : Str) : Str :=
  borderize (ljust ("    Launch Type: ".data ++ t) MAX_LINE_LENGTH)

/-- The four-space indent passed to `textwrap.wrap` for descriptions. -/
def ind4 : Str := "    ".data

/-- The wrapped, bordered description block (space.py lines 68-72 /
121-125). -/
def descLines (d : Str) : List Str :=
  (wrap d MAX_LINE_LENGTH ind4 ind4).map
    (fun line => borderize (ljust line MAX_LINE_LENGTH))

/-- `Event.display` (space.py lines 33-72), as the list of printed lines. -/
def Event.display (e : Event) (verbosity : Verbosity) : List Str :=
  (wrap e.mission_name MAX_LINE_LENGTH [] []).map nameLine
    ++ [locationLine e.location, FILLER, dateLine e.mission_date,
        eventTypeLine e.mission_type]
    ++ (if verbosity ≠ Verbosity.QUIET
        then FILLER :: descLines e.mission_description
        else [])

/-- `Rocket._generate_chart_line` (space.py lines 193-196). -/
def generateChartLine (left right : Str) : Str :=
  let row := center left (CHART_WIDTH / 2) ++ '│' :: center right (CHART_WIDTH / 2)
  borderize (center ('│' :: center row CHART_WIDTH ++ ['│']) MAX_LINE_LENGTH)

/-- The `INTER_CELL_DIVIDER` line of the rocket panel (space.py line 159). -/
def INTER_CELL_DIVIDER : Str :=
  borderize (center ('├' :: List.replicate CHART_WIDTH '─' ++ ['┤']) MAX_LINE_LENGTH)

/-- `Rocket.display` (space.py lines 156-191), as the list of printed
lines. -/
def Rocket.display (r : Rocket) : List Str :=
  [ borderize (center ('┌' :: List.replicate CHART_WIDTH '─' ++ ['┐']) MAX_LINE_LENGTH),
    borderize (center ('│' :: center r.name CHART_WIDTH ++ ['│']) MAX_LINE_LENGTH),
    INTER_CELL_DIVIDER,
    generateChartLine ("Height: ".data ++ r.height ++ " m".data)
      ("Mass to LEO: ".data ++ r.payload_leo ++ " kg".data),
    INTER_CELL_DIVIDER,
    generateChartLine ("Max Stages ".data ++ r.max_stages)
      ("Liftoff Thrust: ".data ++ r.liftoff_thrust ++ " kN".data),
    INTER_CELL_DIVIDER,
    generateChartLine ("Mass to GTO: ".data ++ r.payload_gto ++ " kg".data)
      ("Liftoff Mass: ".data ++ r.liftoff_mass ++ " Tonnes".data),
    INTER_CELL_DIVIDER,
    generateChartLine ("Launch Successes: ".data ++ r.successful_launches)
      ("Maiden Flight: ".data ++ r.maiden_flight_date),
    INTER_CELL_DIVIDER,
    generateChartLine ("Consecutive Successes: ".data ++ r.consecutive_successful_launches)
      ("Failed Launches: ".data ++ r.failed_launches),
    borderize (center ('└' :: List.replicate CHART_WIDTH '─' ++ ['┘']) MAX_LINE_LENGTH) ]

/-- `Launch.display` (space.py lines 82-125), as the list of printed lines.
At `VERBOSE` the nested `self.rocket.display()` output appears in place. -/
def Launch.display (l : Launch) (verbosity : Verbosity) : List Str :=
  (wrap l.mission_name MAX_LINE_LENGTH [] []).map nameLine
    ++ [locationLine l.location, FILLER, dateLine l.mission_date,
        launchTypeLine l.mission_type]
    ++ (if verbosity ≠ Verbosity.QUIET
        then (if verbosity = Verbosity.VERBOSE
              then FILLER :: Rocket.display l.rocket
              else [])
          ++ FILLER :: descLines l.mission_description
        else [])

/-! ### ANSI escape analysis

Minimal model of how a terminal consumes the SGR escapes the renderer
emits: an escape starts with `ESC`, its parameter digits accumulate, and the
sequence ends at the final byte `'m'`.  This covers exactly the colorama
codes above. -/

/-- Remove ANSI escape sequences, keeping the visible characters.  The flag
records whether the scanner is inside an escape sequence. -/
def stripAnsiGo : Bool → Str → Str
  | _, [] => []
  | true, c :: t => if c = 'm' then stripAnsiGo false t else stripAnsiGo true t
  | false, c :: t =>
    if c = '\x1b' then stripAnsiGo true t else c :: stripAnsiGo false t

/-- Visible characters of a string containing SGR escapes. -/
def stripAnsi (s : Str) : Str := stripAnsiGo false s

/-- Terminal style state: bold flag and selected foreground color. -/
structure AnsiState where
  bold : Bool
  fg : Option Nat
deriving DecidableEq

/-- The default (reset) style state. -/
def ansiDefault : AnsiState := ⟨false, none⟩

/-- Apply one SGR parameter: `0` resets everything, `1` sets bold, `30-37`
select a foreground color, `39` restores the default foreground. -/
def applySGR (st : AnsiState) (code : Nat) : AnsiState :=
  if code = 0 then ansiDefault
  else if code = 1 then { st with bold := true }
  else if 30 ≤ code ∧ code ≤ 37 then { st with fg := some code }
  else if code = 39 then { st with fg := none }
  else st

/-- Run the style state machine over a string: ordinary characters leave the
state unchanged; an SGR sequence applies its accumulated parameter at the
final byte `'m'`. -/
def ansiRunGo : AnsiState → Bool → Nat → Str → AnsiState
  | st, _, _, [] => st
  | st, true, acc, c :: t =>
    if c = 'm' then ansiRunGo (applySGR st acc) false 0 t
    else if c.isDigit then ansiRunGo st true (acc * 10 + (c.toNat - 48)) t
    else ansiRunGo st true acc t
  | st, false, _, c :: t =>
    if c = '\x1b' then ansiRunGo st true 0 t else ansiRunGo st false 0 t

/-- The style state after printing a string, starting from `st`. -/
def ansiRun (st : AnsiState) (s : Str) : AnsiState := ansiRunGo st false 0 s

/-! ### Whitespace normalization -/

/-- The maximal whitespace-free words of a string, in order (`cur` is the
reversed word being accumulated). -/
def wordsOfGo (cur : Str) : Str → List Str
  | [] => if cur.isEmpty then [] else [cur.reverse]
  | c :: t =>
    if isWrapWS c then
      (if cur.isEmpty then wordsOfGo [] t else cur.reverse :: wordsOfGo [] t)
    else wordsOfGo (c :: cur) t

/-- The whitespace-separated words of a string. -/
def wordsOf (t : Str) : List Str := wordsOfGo [] t

/-- Join a list of lines with single spaces (Python `" ".join(lines)`). -/
def joinSp : List Str → Str
  | [] => []
  | [l] => l
  | l :: ls => l ++ ' ' :: joinSp ls

/-! ### Class runs (for the hyphen-free characterization of the splitter) -/

/-- Accumulate the current run (reversed, of whitespace-class `b`) and cut a
new run at each class change. -/
def runsGo (b : Bool) (cur : Str) : Str → List Str
  | [] => [cur.reverse]
  | c :: t =>
    if isWrapWS c = b then runsGo b (c :: cur) t
    else cur.reverse :: runsGo (isWrapWS c) [c] t

/-- The maximal runs of a string, grouped by whitespace class. -/
def runsBy : Str → List Str
  | [] => []
  | c :: t => runsGo (isWrapWS c) [c] t

/-! ### Specification-side rendering of the rocket panel

These definitions follow the wording of the specification (§4,
`render_rocket_panel`), to be compared with `Rocket.display` above. -/

/-- Spec: "top rule: box-drawing top-left/top-right corners joined by C
horizontal-rule characters". -/
def specTopRule : Str := '┌' :: List.replicate CHART_WIDTH '─' ++ ['┐']

/-- Spec: bottom rule. -/
def specBottomRule : Str := '└' :: List.replicate CHART_WIDTH '─' ++ ['┘']

/-- Spec: divider rule (mid-box cross-joints). -/
def specDividerRule : Str := '├' :: List.replicate CHART_WIDTH '─' ++ ['┤']

/-- Spec: a panel-interior line is wrapped in the nested box's border
characters, centered within the outer width `W`, and wrapped in the outer
border characters. -/
def specPanelLine (interior : Str) : Str :=
  borderize (center interior MAX_LINE_LENGTH)

/-- Spec: "each data row split into two half-width cells of width C/2
separated by a vertical divider, each cell text centered within its
half-width, the two-cell row then centered within C, then the whole row
centered within W". -/
def specDataRow (left right : Str) : Str :=
  let cells := center left (CHART_WIDTH / 2) ++ '│' :: center right (CHART_WIDTH / 2)
  specPanelLine ('│' :: center cells CHART_WIDTH ++ ['│'])

/-- Spec: "title row: rocket name centered in width C, centered in W". -/
def specTitleRow (name : Str) : Str :=
  specPanelLine ('│' :: center name CHART_WIDTH ++ ['│'])

/-- The rocket panel as described by the specification: the fixed sequence
top, title, divider, row1, divider, row2, divider, row3, divider, row4,
divider, row5, bottom, with the specified left|right cell contents. -/
def specRocketPanel (r : Rocket) : List Str :=
  [ specPanelLine specTopRule,
    specTitleRow r.name,
    specPanelLine specDividerRule,
    specDataRow ("Height: ".data ++ r.height ++ " m".data)
      ("Mass to LEO: ".data ++ r.payload_leo ++ " kg".data),
    specPanelLine specDividerRule,
    specDataRow ("Max Stages ".data ++ r.max_stages)
      ("Liftoff Thrust: ".data ++ r.liftoff_thrust ++ " kN".data),
    specPanelLine specDividerRule,
    specDataRow ("Mass to GTO: ".data ++ r.payload_gto ++ " kg".data)
      ("Liftoff Mass: ".data ++ r.liftoff_mass ++ " Tonnes".data),
    specPanelLine specDividerRule,
    specDataRow ("Launch Successes: ".data ++ r.successful_launches)
      ("Maiden Flight: ".data ++ r.maiden_flight_date),
    specPanelLine specDividerRule,
    specDataRow ("Consecutive Successes: ".data ++ r.consecutive_successful_launches)
      ("Failed Launches: ".data ++ r.failed_launches),
    specPanelLine specBottomRule ]

/-! ### Example records (used as concrete inputs below) -/

/-- The example event of spec §8: one-line mission name, location, date,
description and type. -/
def exampleEvent : Event :=
  { mission_name := "Starlink Group 6-10".data
    location := "Cape Canaveral SFS, FL, USA".data
    mission_date := "Wed November 01, 2023 02:00 PM UTC".data
    mission_description := "A Falcon 9 rocket will launch the mission.".data
    mission_type := "Communications".data }

/-- A concrete rocket record with ordinary field values. -/
def exampleRocket : Rocket :=
  { name := "Falcon 9".data
    payload_leo := "22800".data
    payload_gto := "8300".data
    liftoff_thrust := "7607".data
    liftoff_mass := "549".data
    max_stages := "2".data
    height := "70".data
    successful_launches := "200".data
    consecutive_successful_launches := "150".data
    failed_launches := "2".data
    maiden_flight_date := "2010-06-04".data }

/-- A concrete launch record built from the example event and rocket. -/
def exampleLaunch : Launch :=
  { mission_name := "Starlink Group 6-10".data
    location := "Cape Canaveral SFS, FL, USA".data
    mission_date := "Wed November 01, 2023 02:00 PM UTC".data
    mission_description := "A Falcon 9 rocket will launch the mission.".data
    mission_type := "Communications".data
    rocket := exampleRocket }

/-! ### Display structure lemmas -/

/-- `Event.display` at a non-quiet verbosity appends the filler and the
description block to the quiet output. -/
lemma event_display_not_quiet (e : Event) (v : Verbosity)
    (h : v ≠ Verbosity.QUIET) :
    Event.display e v =
      Event.display e Verbosity.QUIET ++ FILLER :: descLines e.mission_description := by
  simp [Event.display, h]

/-- `Event.display` at `QUIET` is the bare header block. -/
lemma event_display_quiet (e : Event) :
    Event.display e Verbosity.QUIET =
      (wrap e.mission_name MAX_LINE_LENGTH [] []).map nameLine
        ++ [locationLine e.location, FILLER, dateLine e.mission_date,
            eventTypeLine e.mission_type] := by
  simp [Event.display]

/-- `Launch.display` at `QUIET` is the bare header block. -/
lemma launch_display_quiet (l : Launch) :
    Launch.display l Verbosity.QUIET =
      (wrap l.mission_name MAX_LINE_LENGTH [] []).map nameLine
        ++ [locationLine l.location, FILLER, dateLine l.mission_date,
            launchTypeLine l.mission_type] := by
  simp [Launch.display]

/-- `Launch.display` at `NORMAL` appends the filler and the description
block to the quiet output. -/
lemma launch_display_normal (l : Launch) :
    Launch.display l Verbosity.NORMAL =
      Launch.display l Verbosity.QUIET ++ FILLER :: descLines l.mission_description := by
  simp [Launch.display]

/-- `Launch.display` at `VERBOSE` inserts the filler plus the rocket panel
between the header block and the filler-plus-description block. -/
lemma launch_display_verbose (l : Launch) :
    Launch.display l Verbosity.VERBOSE =
      Launch.display l Verbosity.QUIET
        ++ (FILLER :: Rocket.display l.rocket)
        ++ FILLER :: descLines l.mission_description := by
  simp [Launch.display]

/-- The quiet output of a launch ends with the launch-type line. -/
lemma launch_display_quiet_getLast (l : Launch) :
    (Launch.display l Verbosity.QUIET).getLast? =
      some (launchTypeLine l.mission_type) := by
  rw [launch_display_quiet]
  rw [show [locationLine l.location, FILLER, dateLine l.mission_date,
        launchTypeLine l.mission_type] =
      [locationLine l.location, FILLER, dateLine l.mission_date] ++
        [launchTypeLine l.mission_type] from rfl,
    ← List.append_assoc, List.getLast?_append_cons]
  rfl

/-- The quiet output of an event ends with the event-type line. -/
lemma event_display_quiet_getLast (e : Event) :
    (Event.display e Verbosity.QUIET).getLast? =
      some (eventTypeLine e.mission_type) := by
  rw [event_display_quiet]
  rw [show [locationLine e.location, FILLER, dateLine e.mission_date,
        eventTypeLine e.mission_type] =
      [locationLine e.location, FILLER, dateLine e.mission_date] ++
        [eventTypeLine e.mission_type] from rfl,
    ← List.append_assoc, List.getLast?_append_cons]
  rfl

/-! ### Wrap-loop invariants -/

lemma sumLens_nil : sumLens [] = 0 := rfl

lemma sumLens_cons (c : Chunk) (cs : List Chunk) :
    sumLens (c :: cs) = c.length + sumLens cs := by
  simp [sumLens]

lemma sumLens_append (a b : List Chunk) :
    sumLens (a ++ b) = sumLens a + sumLens b := by
  simp [sumLens]

lemma sumLens_dropLast_le : ∀ cl : List Chunk, sumLens cl.dropLast ≤ sumLens cl
  | [] => le_refl _
  | [c] => by simp [sumLens]
  | c :: d :: cl => by
    have ih := sumLens_dropLast_le (d :: cl)
    rw [sumLens_cons] at ih
    simp only [List.dropLast_cons₂, sumLens_cons]
    omega

/-- Decomposition of the greedy pull: the taken chunks followed by the rest
reassemble the input, and the returned length is the starting length plus
the taken total. -/
lemma greedyPull_decomp (w : Nat) :
    ∀ (cs : List Chunk) (n : Nat),
      (greedyPull w n cs).1 ++ (greedyPull w n cs).2.2 = cs ∧
        (greedyPull w n cs).2.1 = n + sumLens (greedyPull w n cs).1
  | [], n => by simp [greedyPull, sumLens]
  | c :: cs, n => by
    by_cases h : n + c.length ≤ w
    · have ih := greedyPull_decomp w cs (n + c.length)
      simp only [greedyPull, if_pos h]
      refine ⟨by rw [List.cons_append, ih.1], ?_⟩
      rw [ih.2, sumLens_cons]
      omega
    · simp [greedyPull, if_neg h, sumLens]

/-- The greedy pull never exceeds the width. -/
lemma greedyPull_le (w : Nat) :
    ∀ (cs : List Chunk) (n : Nat), n ≤ w → (greedyPull w n cs).2.1 ≤ w
  | [], n, hn => hn
  | c :: cs, n, hn => by
    by_cases h : n + c.length ≤ w
    · have ih := greedyPull_le w cs (n + c.length) h
      simpa [greedyPull, if_pos h] using ih
    · simpa [greedyPull, if_neg h] using hn

/-- A successful `rfindHyphen` index lies inside the searched range. -/
lemma rfindHyphen_lt (c : Chunk) (e : Nat) {h : Nat}
    (hf : rfindHyphen c e = some h) : h < (c.take e).length := by
  unfold rfindHyphen at hf
  cases hj : (c.take e).reverse.findIdx? (fun d => d == '-') with
  | none => rw [hj] at hf; simp at hf
  | some j =>
    rw [hj] at hf
    simp only [Option.map_some'] at hf
    have hfe := Option.some.inj hf
    have hne : c.take e ≠ [] := by
      intro h0
      rw [h0] at hj
      simp at hj
    have hlen : 1 ≤ (c.take e).length := by
      cases hq : c.take e with
      | nil => exact absurd hq hne
      | cons a t => simp [hq]
    omega

/-- The cut index of a long chunk stays within the space left on the
line. -/
lemma longWordEnd_le (w m : Nat) (c : Chunk) (hw : 1 ≤ w) :
    longWordEnd w m c ≤ w - m := by
  have hnlt : ¬ w < 1 := by omega
  unfold longWordEnd
  simp only [hnlt, if_false]
  by_cases hsp : w - m < c.length
  · simp only [if_pos hsp]
    cases hf : rfindHyphen c (w - m) with
    | none => exact le_refl _
    | some h =>
      by_cases hcond : 0 < h ∧ (c.take h).any (fun d => d != '-')
      · simp only [if_pos hcond]
        have h1 := rfindHyphen_lt c (w - m) hf
        have h2 : (c.take (w - m)).length ≤ w - m := List.length_take_le _ _
        omega
      · simp only [if_neg hcond]
        exact le_refl _
  · simp only [if_neg hsp]
    exact le_refl _

/-- The piece split off a long chunk fits in the space left on the line. -/
lemma handleLongWord_piece_le (w m : Nat) (c : Chunk) (hw : 1 ≤ w)
    (_hm : m ≤ w) : (handleLongWord w m c).1.length ≤ w - m :=
  le_trans (List.length_take_le _ _) (longWordEnd_le w m c hw)

/-- After the long-word step the current line still fits in the width. -/
lemma addLongWord_sum_le (w : Nat) (taken rest : List Chunk) (hw : 1 ≤ w)
    (hm : sumLens taken ≤ w) :
    sumLens (addLongWord w (sumLens taken) taken rest).1 ≤ w := by
  cases rest with
  | nil => simpa [addLongWord]
  | cons c rest =>
    by_cases h : w < c.length
    · have hp := handleLongWord_piece_le w (sumLens taken) c hw hm
      simp only [addLongWord, if_pos h]
      rw [sumLens_append, sumLens_cons, sumLens_nil]
      omega
    · simpa [addLongWord, if_neg h]

/-- Shape of an emitted line: the (shared) indent followed by the flattened
current-line chunks, which fit in the residual width. -/
lemma nextLine_some_spec (started : Bool) (width : Nat) (ind : Str)
    (cs : List Chunk) (hw : ind.length < width) {l : Str}
    (h : (nextLine started width ind ind cs).1 = some l) :
    l.length ≤ width ∧ l.take ind.length = ind := by
  have hw1 : 1 ≤ width - ind.length := by omega
  unfold nextLine at h
  simp only [ite_self] at h
  split at h
  · exact absurd h (by simp)
  · rename_i hne
    have hl : l = ind ++ (dropTrailingWS
        (addLongWord (width - ind.length)
          (greedyPull (width - ind.length) 0 (dropLeadingWS started cs)).2.1
          (greedyPull (width - ind.length) 0 (dropLeadingWS started cs)).1
          (greedyPull (width - ind.length) 0 (dropLeadingWS started cs)).2.2).1).flatten := by
      exact (Option.some_injective _ h).symm
    set w := width - ind.length with hwdef
    set cs1 := dropLeadingWS started cs with hcs1
    have hg := greedyPull_decomp w cs1 0
    have hgle := greedyPull_le w cs1 0 (by omega)
    have hsum : sumLens (greedyPull w 0 cs1).1 ≤ w := by omega
    have hadd : sumLens (addLongWord w (greedyPull w 0 cs1).2.1
        (greedyPull w 0 cs1).1 (greedyPull w 0 cs1).2.2).1 ≤ w := by
      rw [hg.2, Nat.zero_add]
      exact addLongWord_sum_le w _ _ hw1 hsum
    have hdrop : sumLens (dropTrailingWS (addLongWord w (greedyPull w 0 cs1).2.1
        (greedyPull w 0 cs1).1 (greedyPull w 0 cs1).2.2).1) ≤ w := by
      refine le_trans ?_ hadd
      unfold dropTrailingWS
      split
      · split
        · exact sumLens_dropLast_le _
        · exact le_refl _
      · exact le_refl _
    constructor
    · rw [hl, List.length_append]
      have : (List.flatten (dropTrailingWS (addLongWord w (greedyPull w 0 cs1).2.1
          (greedyPull w 0 cs1).1 (greedyPull w 0 cs1).2.2).1)).length ≤ w := by
        rw [List.length_flatten]
        exact hdrop
      omega
    · rw [hl, List.take_append_of_le_length (le_refl _), List.take_length]

/-- Every line emitted by the wrap loop (with equal indents shorter than the
width) is at most `width` long and starts with the indent. -/
lemma wrapChunksLoop_line_spec (width : Nat) (ind : Str)
    (hw : ind.length < width) :
    ∀ (fuel : Nat) (started : Bool) (cs : List Chunk),
      ∀ l ∈ wrapChunksLoop width ind ind fuel started cs,
        l.length ≤ width ∧ l.take ind.length = ind
  | 0, _, _ => by intro l hl; simp [wrapChunksLoop] at hl
  | fuel + 1, started, [] => by intro l hl; simp [wrapChunksLoop] at hl
  | fuel + 1, started, c :: cs => by
    intro l hl
    rw [wrapChunksLoop] at hl
    rcases hr : (nextLine started width ind ind (c :: cs)).1 with _ | l0
    · rw [hr] at hl
      exact wrapChunksLoop_line_spec width ind hw fuel started _ l hl
    · rw [hr] at hl
      rcases List.mem_cons.1 hl with rfl | hl'
      · exact nextLine_some_spec started width ind (c :: cs) hw hr
      · exact wrapChunksLoop_line_spec width ind hw fuel true _ l hl'

/-- Every line of a wrapped text (with equal indents shorter than the
width) is at most `width` long and starts with the indent. -/
lemma wrap_line_spec (text : Str) (width : Nat) (ind : Str)
    (hw : ind.length < width) :
    ∀ l ∈ wrap text width ind ind, l.length ≤ width ∧ l.take ind.length = ind := by
  intro l hl
  exact wrapChunksLoop_line_spec width ind hw _ false _ l hl

/-! ### Whitespace-only inputs -/

lemma takeWhile_of_all {p : Char → Bool} :
    ∀ t : Str, t.all p = true → t.takeWhile p = t ∧ t.dropWhile p = []
  | [], _ => ⟨rfl, rfl⟩
  | c :: t, h => by
    simp only [List.all_cons, Bool.and_eq_true] at h
    have ih := takeWhile_of_all t h.2
    simp [List.takeWhile_cons, List.dropWhile_cons, h.1, ih.1, ih.2]

lemma expandtabs_all_ws :
    ∀ (t : Str) (col : Nat), t.all isWrapWS = true →
      (expandtabs t col).all isWrapWS = true
  | [], _, _ => rfl
  | c :: t, col, h => by
    simp only [List.all_cons, Bool.and_eq_true] at h
    unfold expandtabs
    by_cases hc : c = '\t'
    · subst hc
      rw [if_pos rfl, List.all_append, Bool.and_eq_true]
      refine ⟨?_, expandtabs_all_ws t _ h.2⟩
      rw [List.all_eq_true]
      intro x hx
      rw [List.mem_replicate] at hx
      rw [hx.2]
      decide
    · rw [if_neg hc]
      by_cases hnr : c = '\n' ∨ c = '\r'
      · rw [if_pos hnr]
        simp [List.all_cons, h.1, expandtabs_all_ws t 0 h.2]
      · rw [if_neg hnr]
        simp [List.all_cons, h.1, expandtabs_all_ws t (col + 1) h.2]

lemma replaceWS_all_ws (t : Str) (h : t.all isWrapWS = true) :
    (replaceWS t).all isWrapWS = true := by
  unfold replaceWS
  rw [List.all_eq_true] at h ⊢
  intro c hc
  rcases List.mem_map.1 hc with ⟨d, hd, rfl⟩
  by_cases hws : isWrapWS d
  · rw [if_pos hws]
    decide
  · exact absurd (h d hd) hws

lemma munge_all_ws (t : Str) (h : t.all isWrapWS = true) :
    (munge t).all isWrapWS = true :=
  replaceWS_all_ws _ (expandtabs_all_ws t 0 h)

lemma splitLoop_nil (fuel : Nat) (prev : Str) (acc : List Str) :
    splitLoop fuel prev [] acc = acc.reverse := by
  cases fuel <;> rfl

/-- Splitting an all-whitespace nonempty text yields a single chunk. -/
lemma splitChunks_all_ws (t : Str) (h : t.all isWrapWS = true) (hne : t ≠ []) :
    splitChunks t = [t] := by
  cases t with
  | nil => exact absurd rfl hne
  | cons c rest =>
    simp only [List.all_cons, Bool.and_eq_true] at h
    have htw := takeWhile_of_all rest h.2
    show splitLoop (c :: rest).length [] (c :: rest) [] = [c :: rest]
    rw [List.length_cons, splitLoop, if_pos h.1]
    rw [htw.1, htw.2, splitLoop_nil]
    rfl

lemma wrapChunksLoop_nil (width : Nat) (ii si : Str) (fuel : Nat)
    (started : Bool) : wrapChunksLoop width ii si fuel started [] = [] := by
  cases fuel <;> rfl

lemma chunkBlank_take (c : Chunk) (hb : chunkBlank c = true) (n : Nat) :
    chunkBlank (c.take n) = true := by
  rw [chunkBlank, List.all_eq_true] at hb ⊢
  exact fun x hx => hb x (List.mem_of_mem_take hx)

lemma chunkBlank_drop (c : Chunk) (hb : chunkBlank c = true) (n : Nat) :
    chunkBlank (c.drop n) = true := by
  rw [chunkBlank, List.all_eq_true] at hb ⊢
  exact fun x hx => hb x (List.mem_of_mem_drop hx)

/-- A single all-whitespace chunk never yields a line: the iteration emits
nothing and leaves either no chunk or a single smaller all-whitespace
chunk. -/
lemma nextLine_blank_single (started : Bool) (width : Nat) (ii si : Str)
    (c : Chunk) (hb : chunkBlank c = true) :
    (nextLine started width ii si [c]).1 = none ∧
      ((nextLine started width ii si [c]).2 = [] ∨
        ∃ c', (nextLine started width ii si [c]).2 = [c'] ∧
          chunkBlank c' = true) := by
  simp only [nextLine, dropLeadingWS]
  by_cases hdrop : (started && chunkBlank c) = true
  · simp [hdrop, greedyPull, addLongWord, dropTrailingWS]
  · simp only [hdrop, if_false, Bool.false_eq_true]
    by_cases hfit : c.length ≤ width - (if started then si else ii).length
    · simp [greedyPull, hfit, addLongWord, dropTrailingWS, hb]
    · have hlong : width - (if started then si else ii).length < c.length := by
        omega
      simp [greedyPull, hfit, addLongWord, hlong, handleLongWord,
        dropTrailingWS, chunkBlank_take c hb, chunkBlank_drop c hb]
  
/-- The wrap loop never emits a line from a single all-whitespace chunk. -/
lemma wrapChunksLoop_single_blank (width : Nat) (ii si : Str) :
    ∀ (fuel : Nat) (started : Bool) (c : Chunk), chunkBlank c = true →
      wrapChunksLoop width ii si fuel started [c] = []
  | 0, _, _, _ => rfl
  | fuel + 1, started, c, hb => by
    obtain ⟨h1, h2⟩ := nextLine_blank_single started width ii si c hb
    simp only [wrapChunksLoop]
    rw [h1]
    rcases h2 with h2 | ⟨c', h2, hb'⟩
    · rw [h2]
      exact wrapChunksLoop_nil width ii si fuel started
    · rw [h2]
      exact wrapChunksLoop_single_blank width ii si fuel started c' hb'

/-- `textwrap.wrap` of an all-whitespace (or empty) text is empty. -/
lemma wrap_all_ws (t : Str) (width : Nat) (ii si : Str)
    (h : t.all isWrapWS = true) : wrap t width ii si = [] := by
  unfold wrap
  by_cases hne : munge t = []
  · rw [hne]
    exact wrapChunksLoop_nil width ii si _ false
  · rw [splitChunks_all_ws (munge t) (munge_all_ws t h) hne]
    exact wrapChunksLoop_single_blank width ii si _ false _ (munge_all_ws t h)

/-! ### Character provenance

Every character of a wrapped line comes from the input text (via `munge`),
from an indent, or is a space. -/

lemma expandtabs_chars :
    ∀ (t : Str) (col : Nat) (x : Char), x ∈ expandtabs t col → x ∈ t ∨ x = ' '
  | [], _, x, h => by simp [expandtabs] at h
  | c :: t, col, x, h => by
    unfold expandtabs at h
    by_cases hc : c = '\t'
    · rw [if_pos hc] at h
      rcases List.mem_append.1 h with h1 | h1
      · exact Or.inr (List.eq_of_mem_replicate h1)
      · rcases expandtabs_chars t _ x h1 with h2 | h2
        · exact Or.inl (List.mem_cons_of_mem _ h2)
        · exact Or.inr h2
    · rw [if_neg hc] at h
      by_cases hnr : c = '\n' ∨ c = '\r'
      all_goals
        first
        | rw [if_pos hnr] at h
        | rw [if_neg hnr] at h
      all_goals
        rcases List.mem_cons.1 h with h1 | h1
        · exact Or.inl (h1 ▸ List.mem_cons_self _ _)
        · rcases expandtabs_chars t _ x h1 with h2 | h2
          · exact Or.inl (List.mem_cons_of_mem _ h2)
          · exact Or.inr h2

lemma munge_chars (t : Str) (x : Char) (h : x ∈ munge t) : x ∈ t ∨ x = ' ' := by
  unfold munge replaceWS at h
  rcases List.mem_map.1 h with ⟨d, hd, he⟩
  by_cases hws : isWrapWS d
  · rw [if_pos hws] at he
    exact Or.inr he.symm
  · rw [if_neg hws] at he
    subst he
    exact expandtabs_chars t 0 d hd

lemma hyphenRun_head (s : Str) (h : 1 ≤ hyphenRun s) : s.head? = some '-' := by
  cases s with
  | nil => simp [hyphenRun] at h
  | cons c t =>
    by_cases hc : c = '-'
    · rw [hc]; rfl
    · exfalso
      have : hyphenRun (c :: t) = 0 := by
        unfold hyphenRun
        split
        · rename_i heq
          exact absurd (List.cons.inj heq).1 hc
        · rfl
      omega

lemma emDashAt_hyphen (prev s : Str) (h : emDashAt prev s = true) :
    1 ≤ hyphenRun s := by
  unfold emDashAt at h
  cases prev with
  | nil => exact absurd h (by simp)
  | cons p _ =>
    simp only [Bool.and_eq_true, decide_eq_true_eq] at h
    omega

lemma scanWord_chars :
    ∀ (rest acc prev : Str),
      (∀ x ∈ (scanWord acc prev rest).1, x ∈ acc ∨ x ∈ rest) ∧
        (∀ x ∈ (scanWord acc prev rest).2, x ∈ rest)
  | [], acc, prev => by
    refine ⟨fun x hx => Or.inl ?_, fun x hx => ?_⟩
    · simpa [scanWord] using hx
    · simp [scanWord] at hx
  | c :: rest, acc, prev => by
    unfold scanWord
    split
    · exact ⟨fun x hx => by
        rcases List.mem_cons.1 hx with rfl | hx
        · exact Or.inr (List.mem_cons_self _ _)
        · exact Or.inl hx,
        fun x hx => List.mem_cons_of_mem _ hx⟩
    · split
      · exact ⟨fun x hx => Or.inl hx, fun x hx => hx⟩
      · split
        · exact ⟨fun x hx => Or.inl hx, fun x hx => hx⟩
        · have ih := scanWord_chars rest (c :: acc) prev
          refine ⟨fun x hx => ?_, fun x hx => List.mem_cons_of_mem _ (ih.2 x hx)⟩
          rcases ih.1 x hx with h1 | h1
          · rcases List.mem_cons.1 h1 with rfl | h1
            · exact Or.inr (List.mem_cons_self _ _)
            · exact Or.inl h1
          · exact Or.inr (List.mem_cons_of_mem _ h1)

lemma splitLoop_chars {P : Char → Prop} :
    ∀ (fuel : Nat) (prev rest : Str) (acc : List Str),
      (∀ ch ∈ acc, ∀ x ∈ ch, P x) → (∀ x ∈ rest, P x) →
      ∀ ch ∈ splitLoop fuel prev rest acc, ∀ x ∈ ch, P x
  | 0, prev, rest, acc, hacc, _ => by
    intro ch hch
    exact hacc ch (List.mem_reverse.1 hch)
  | fuel + 1, prev, [], acc, hacc, _ => by
    intro ch hch
    exact hacc ch (List.mem_reverse.1 hch)
  | fuel + 1, prev, c :: rest, acc, hacc, hrest => by
    intro ch hch
    rw [splitLoop] at hch
    split at hch
    · refine splitLoop_chars fuel _ _ _ ?_ ?_ ch hch
      · intro ch' hch' x hx
        rcases List.mem_cons.1 hch' with rfl | hch'
        · rcases List.mem_cons.1 hx with rfl | hx
          · exact hrest x (List.mem_cons_self _ _)
          · exact hrest x (List.mem_cons_of_mem _
              ((List.takeWhile_sublist _).mem hx))
        · exact hacc ch' hch' x hx
      · intro x hx
        exact hrest x (List.mem_cons_of_mem _ ((List.dropWhile_sublist _).mem hx))
    · split at hch
      · rename_i hem
        have hhyp : (c :: rest).head? = some '-' :=
          hyphenRun_head _ (emDashAt_hyphen _ _ hem)
        have hc : c = '-' := by simpa using hhyp
        refine splitLoop_chars fuel _ _ _ ?_ ?_ ch hch
        · intro ch' hch' x hx
          rcases List.mem_cons.1 hch' with rfl | hch'
          · have := List.eq_of_mem_replicate hx
            subst this
            exact hc ▸ hrest c (List.mem_cons_self _ _)
          · exact hacc ch' hch' x hx
        · intro x hx
          exact hrest x (List.mem_of_mem_drop hx)
      · have hsc := scanWord_chars rest [c] prev
        refine splitLoop_chars fuel _ _ _ ?_ ?_ ch hch
        · intro ch' hch' x hx
          rcases List.mem_cons.1 hch' with rfl | hch'
          · rcases hsc.1 x (List.mem_reverse.1 hx) with h1 | h1
            · rcases List.mem_singleton.1 h1 with rfl
              exact hrest x (List.mem_cons_self _ _)
            · exact hrest x (List.mem_cons_of_mem _ h1)
          · exact hacc ch' hch' x hx
        · intro x hx
          exact hrest x (List.mem_cons_of_mem _ (hsc.2 x hx))

lemma splitChunks_chars (t : Str) :
    ∀ ch ∈ splitChunks t, ∀ x ∈ ch, x ∈ t :=
  splitLoop_chars t.length [] t [] (by simp) (fun _ hx => hx)

lemma dropLeadingWS_subset (started : Bool) (cs : List Chunk) :
    ∀ ch ∈ dropLeadingWS started cs, ch ∈ cs := by
  cases cs with
  | nil => intro ch hch; exact hch
  | cons c rest =>
    intro ch hch
    simp only [dropLeadingWS] at hch
    split at hch
    · exact List.mem_cons_of_mem _ hch
    · exact hch

lemma dropTrailingWS_subset (cl : List Chunk) :
    ∀ ch ∈ dropTrailingWS cl, ch ∈ cl := by
  intro ch hch
  unfold dropTrailingWS at hch
  split at hch
  · split at hch
    · exact List.dropLast_subset _ hch
    · exact hch
  · exact hch

/-- Characters of an emitted line come from the indent or from the chunks;
characters of the remaining chunks come from the input chunks. -/
lemma nextLine_chars {P : Char → Prop} (started : Bool) (width : Nat)
    (ii si : Str) (cs : List Chunk)
    (hcs : ∀ ch ∈ cs, ∀ x ∈ ch, P x) :
    (∀ l, (nextLine started width ii si cs).1 = some l →
      ∀ x ∈ l, x ∈ ii ∨ x ∈ si ∨ P x) ∧
      (∀ ch ∈ (nextLine started width ii si cs).2, ∀ x ∈ ch, P x) := by
  have hcs1 : ∀ ch ∈ dropLeadingWS started cs, ∀ x ∈ ch, P x :=
    fun ch hch => hcs ch (dropLeadingWS_subset started cs ch hch)
  have htaken : ∀ (w : Nat), ∀ ch ∈ (greedyPull w 0 (dropLeadingWS started cs)).1,
      ∀ x ∈ ch, P x := by
    intro w ch hch
    exact hcs1 ch ((greedyPull_decomp w (dropLeadingWS started cs) 0).1 ▸
      List.mem_append_left _ hch)
  have hrest1 : ∀ (w : Nat), ∀ ch ∈ (greedyPull w 0 (dropLeadingWS started cs)).2.2,
      ∀ x ∈ ch, P x := by
    intro w ch hch
    exact hcs1 ch ((greedyPull_decomp w (dropLeadingWS started cs) 0).1 ▸
      List.mem_append_right _ hch)
  have hcur : ∀ (w : Nat),
      ∀ ch ∈ (addLongWord w (greedyPull w 0 (dropLeadingWS started cs)).2.1
        (greedyPull w 0 (dropLeadingWS started cs)).1
        (greedyPull w 0 (dropLeadingWS started cs)).2.2).1, ∀ x ∈ ch, P x := by
    intro w
    cases hr : (greedyPull w 0 (dropLeadingWS started cs)).2.2 with
    | nil =>
      intro ch hch
      rw [addLongWord] at hch
      exact htaken w ch hch
    | cons c0 rest0 =>
      intro ch hch
      rw [addLongWord] at hch
      split at hch
      · rcases List.mem_append.1 hch with h1 | h1
        · exact htaken w ch h1
        · rcases List.mem_singleton.1 h1 with rfl
          intro x hx
          exact hrest1 w c0 (hr ▸ List.mem_cons_self _ _) x
            (List.mem_of_mem_take hx)
      · exact htaken w ch hch
  have hrest2 : ∀ (w : Nat),
      ∀ ch ∈ (addLongWord w (greedyPull w 0 (dropLeadingWS started cs)).2.1
        (greedyPull w 0 (dropLeadingWS started cs)).1
        (greedyPull w 0 (dropLeadingWS started cs)).2.2).2, ∀ x ∈ ch, P x := by
    intro w
    cases hr : (greedyPull w 0 (dropLeadingWS started cs)).2.2 with
    | nil =>
      intro ch hch
      rw [addLongWord] at hch
      simp at hch
    | cons c0 rest0 =>
      intro ch hch
      rw [addLongWord] at hch
      split at hch
      · rcases List.mem_cons.1 hch with rfl | h1
        · intro x hx
          exact hrest1 w c0 (hr ▸ List.mem_cons_self _ _) x
            (List.mem_of_mem_drop hx)
        · exact hrest1 w ch (hr ▸ List.mem_cons_of_mem _ h1)
      · exact hrest1 w ch (hr ▸ hch)
  constructor
  · intro l hl x hx
    simp only [nextLine] at hl
    split at hl
    · split at hl
      · exact absurd hl (by simp)
      · replace hl := (Option.some_injective _ hl).symm
        subst hl
        rcases List.mem_append.1 hx with h1 | h1
        · exact Or.inr (Or.inl h1)
        · rcases List.mem_flatten.1 h1 with ⟨ch, hch, hxch⟩
          exact Or.inr (Or.inr
            (hcur _ ch (dropTrailingWS_subset _ ch hch) x hxch))
    · split at hl
      · exact absurd hl (by simp)
      · replace hl := (Option.some_injective _ hl).symm
        subst hl
        rcases List.mem_append.1 hx with h1 | h1
        · exact Or.inl h1
        · rcases List.mem_flatten.1 h1 with ⟨ch, hch, hxch⟩
          exact Or.inr (Or.inr
            (hcur _ ch (dropTrailingWS_subset _ ch hch) x hxch))
  · intro ch hch
    simp only [nextLine] at hch
    exact hrest2 _ ch hch

/-- Characters of a wrapped line come from an indent or from the munged
input text. -/
lemma wrap_chars (text : Str) (width : Nat) (ii si : Str) :
    ∀ l ∈ wrap text width ii si, ∀ x ∈ l, x ∈ ii ∨ x ∈ si ∨ x ∈ munge text := by
  suffices h : ∀ (fuel : Nat) (started : Bool) (cs : List Chunk),
      (∀ ch ∈ cs, ∀ x ∈ ch, x ∈ munge text) →
      ∀ l ∈ wrapChunksLoop width ii si fuel started cs,
        ∀ x ∈ l, x ∈ ii ∨ x ∈ si ∨ x ∈ munge text by
    intro l hl
    exact h _ false _ (splitChunks_chars (munge text)) l hl
  intro fuel
  induction fuel with
  | zero => intro started cs hcs l hl; simp [wrapChunksLoop] at hl
  | succ fuel ih =>
    intro started cs hcs l hl
    cases cs with
    | nil => simp [wrapChunksLoop] at hl
    | cons c rest =>
      have hn := nextLine_chars (P := fun x => x ∈ munge text)
        started width ii si (c :: rest) hcs
      simp only [wrapChunksLoop] at hl
      rcases hr : (nextLine started width ii si (c :: rest)).1 with _ | l0
      · rw [hr] at hl
        exact ih started _ hn.2 l hl
      · rw [hr] at hl
        rcases List.mem_cons.1 hl with rfl | hl'
        · exact hn.1 l hr
        · exact ih true _ hn.2 l hl'

/-- A wrapped line of escape-free text (with escape-free indents) is
escape-free. -/
lemma wrap_noEsc (text : Str) (width : Nat) (ii si : Str)
    (ht : '\x1b' ∉ text) (hii : '\x1b' ∉ ii) (hsi : '\x1b' ∉ si) :
    ∀ l ∈ wrap text width ii si, '\x1b' ∉ l := by
  intro l hl hx
  rcases wrap_chars text width ii si l hl '\x1b' hx with h | h | h
  · exact hii h
  · exact hsi h
  · rcases munge_chars text '\x1b' h with h1 | h1
    · exact ht h1
    · exact absurd h1 (by decide)

/-! ### Padding lengths -/

lemma ljust_length (s : Str) (w : Nat) : (ljust s w).length = max s.length w := by
  simp [ljust]
  omega

lemma center_length (s : Str) (w : Nat) : (center s w).length = max s.length w := by
  unfold center
  split
  · omega
  · simp only [List.length_append, List.length_replicate]
    split
    · omega
    · omega

lemma ljust_length_of_le (s : Str) (w : Nat) (h : s.length ≤ w) :
    (ljust s w).length = w := by
  rw [ljust_length]
  omega

lemma center_length_of_le (s : Str) (w : Nat) (h : s.length ≤ w) :
    (center s w).length = w := by
  rw [center_length]
  omega

/-! ### Escape-free strings and the ANSI scanners -/

lemma noEsc_append {a b : Str} (ha : '\x1b' ∉ a) (hb : '\x1b' ∉ b) :
    '\x1b' ∉ a ++ b := by
  intro h
  rcases List.mem_append.1 h with h | h
  · exact ha h
  · exact hb h

lemma noEsc_replicate (n : Nat) {c : Char} (hc : c ≠ '\x1b') :
    '\x1b' ∉ List.replicate n c := by
  intro h
  exact hc (List.eq_of_mem_replicate h).symm

lemma noEsc_ljust {s : Str} (w : Nat) (h : '\x1b' ∉ s) : '\x1b' ∉ ljust s w :=
  noEsc_append h (noEsc_replicate _ (by decide))

lemma noEsc_center {s : Str} (w : Nat) (h : '\x1b' ∉ s) : '\x1b' ∉ center s w := by
  unfold center
  split
  · exact h
  · exact noEsc_append (noEsc_append (noEsc_replicate _ (by decide)) h)
      (noEsc_replicate _ (by decide))

lemma noEsc_take {s : Str} (n : Nat) (h : '\x1b' ∉ s) : '\x1b' ∉ s.take n :=
  fun hx => h (List.mem_of_mem_take hx)

lemma stripAnsiGo_noEsc_append (a b : Str) (h : '\x1b' ∉ a) :
    stripAnsiGo false (a ++ b) = a ++ stripAnsiGo false b := by
  induction a with
  | nil => rfl
  | cons c t ih =>
    have hc : c ≠ '\x1b' := fun hh => h (hh ▸ List.mem_cons_self _ _)
    have ht : '\x1b' ∉ t := fun hh => h (List.mem_cons_of_mem _ hh)
    simp only [List.cons_append, stripAnsiGo, if_neg hc, List.append_eq]
    rw [ih ht]

lemma stripAnsi_noEsc (a : Str) (h : '\x1b' ∉ a) : stripAnsi a = a := by
  have h2 := stripAnsiGo_noEsc_append a [] h
  rw [List.append_nil] at h2
  rw [stripAnsi, h2]
  simp [show stripAnsiGo false [] = ([] : Str) from rfl]

lemma ansiRunGo_noEsc_append (st : AnsiState) (a b : Str) (h : '\x1b' ∉ a) :
    ansiRunGo st false 0 (a ++ b) = ansiRunGo st false 0 b := by
  induction a with
  | nil => rfl
  | cons c t ih =>
    have hc : c ≠ '\x1b' := fun hh => h (hh ▸ List.mem_cons_self _ _)
    have ht : '\x1b' ∉ t := fun hh => h (List.mem_cons_of_mem _ hh)
    simp only [List.cons_append, ansiRunGo, if_neg hc, List.append_eq]
    exact ih ht

lemma ansiRun_noEsc (st : AnsiState) (a : Str) (h : '\x1b' ∉ a) :
    ansiRun st a = st := by
  have h2 := ansiRunGo_noEsc_append st a [] h
  rw [List.append_nil] at h2
  rw [ansiRun, h2]
  rfl

/-! ### Line-shape properties -/

/-- A content line whose interior, stripped of the border glyphs and ANSI
escapes, spans exactly `W = 88` visible characters. -/
def visible88 (line : Str) : Prop :=
  ∃ mid, line = '│' :: mid ++ ['│'] ∧
    (stripAnsi mid).length = MAX_LINE_LENGTH

/-- A content line whose interior styling is fully reset before the
trailing border glyph (and whose leading border glyph precedes every
escape), so that nothing leaks past the line boundary. -/
def styleReset (line : Str) : Prop :=
  ∃ mid, line = '│' :: mid ++ ['│'] ∧
    ansiRun ansiDefault mid = ansiDefault ∧
    ansiRun ansiDefault line = ansiDefault

/-- An escape-free interior of length 88 satisfies both line properties. -/
lemma line_props_noEsc (mid : Str) (hesc : '\x1b' ∉ mid)
    (hlen : mid.length = MAX_LINE_LENGTH) :
    visible88 (borderize mid) ∧ styleReset (borderize mid) := by
  refine ⟨⟨mid, rfl, by rw [stripAnsi_noEsc mid hesc]; exact hlen⟩,
    ⟨mid, rfl, ansiRun_noEsc _ _ hesc, ?_⟩⟩
  show ansiRunGo ansiDefault false 0 ('│' :: mid ++ ['│']) = ansiDefault
  have h1 : ansiRunGo ansiDefault false 0 ('│' :: mid ++ ['│']) =
      ansiRunGo ansiDefault false 0 (mid ++ ['│']) := rfl
  rw [h1, ansiRunGo_noEsc_append _ _ _ hesc]
  rfl

/-- The mission-name line: bright cyan styled, reset with `RESET_ALL`. -/
lemma line_props_name (l : Str) (hesc : '\x1b' ∉ l)
    (hlen : l.length ≤ MAX_LINE_LENGTH) :
    visible88 (nameLine l) ∧ styleReset (nameLine l) := by
  have key : ∀ b : Str, '\x1b' ∉ b →
      ansiRunGo ansiDefault false 0
        ((BRIGHT ++ CYAN ++ ljust l MAX_LINE_LENGTH ++ RESET_ALL) ++ b) =
        ansiDefault := by
    intro b hb
    have h1 : ansiRunGo ansiDefault false 0
        ((BRIGHT ++ CYAN ++ ljust l MAX_LINE_LENGTH ++ RESET_ALL) ++ b) =
        ansiRunGo ⟨true, some 36⟩ false 0
          ((ljust l MAX_LINE_LENGTH ++ RESET_ALL) ++ b) := rfl
    rw [h1, List.append_assoc,
      ansiRunGo_noEsc_append _ _ _ (noEsc_ljust _ hesc)]
    have h2 : ansiRunGo (⟨true, some 36⟩ : AnsiState) false 0 (RESET_ALL ++ b) =
        ansiRunGo ansiDefault false 0 b := rfl
    rw [h2]
    exact ansiRun_noEsc _ _ hb
  have hmid : stripAnsi (BRIGHT ++ CYAN ++ ljust l MAX_LINE_LENGTH ++ RESET_ALL) =
      ljust l MAX_LINE_LENGTH := by
    have h1 : stripAnsi (BRIGHT ++ CYAN ++ ljust l MAX_LINE_LENGTH ++ RESET_ALL) =
        stripAnsiGo false (ljust l MAX_LINE_LENGTH ++ RESET_ALL) := rfl
    rw [h1, stripAnsiGo_noEsc_append _ _ (noEsc_ljust _ hesc)]
    simp [show stripAnsiGo false RESET_ALL = [] from rfl]
  have hstm : ansiRun ansiDefault
      (BRIGHT ++ CYAN ++ ljust l MAX_LINE_LENGTH ++ RESET_ALL) = ansiDefault := by
    have := key [] (by simp)
    rwa [List.append_nil] at this
  refine ⟨⟨_, rfl, by rw [hmid]; exact ljust_length_of_le _ _ hlen⟩,
    ⟨_, rfl, hstm, ?_⟩⟩
  exact key ['│'] (by decide)

/-- A colored line reset with `Fore.RESET`, given the reductions of the
color code: covers the location (cyan) and date (green) lines. -/
lemma line_props_color (n : Nat) (code : Str)
    (hskip : ∀ b : Str,
      ansiRunGo ansiDefault false 0 (code ++ b) =
        ansiRunGo ⟨false, some n⟩ false 0 b)
    (hstrip : ∀ b : Str, stripAnsiGo false (code ++ b) = stripAnsiGo false b)
    (s : Str) (hesc : '\x1b' ∉ s) (hlen : s.length ≤ MAX_LINE_LENGTH) :
    visible88 (borderize (code ++ ljust s MAX_LINE_LENGTH ++ FORE_RESET)) ∧
      styleReset (borderize (code ++ ljust s MAX_LINE_LENGTH ++ FORE_RESET)) := by
  have key : ∀ b : Str, '\x1b' ∉ b →
      ansiRunGo ansiDefault false 0
        ((code ++ ljust s MAX_LINE_LENGTH ++ FORE_RESET) ++ b) = ansiDefault := by
    intro b hb
    rw [List.append_assoc, List.append_assoc, hskip,
      ansiRunGo_noEsc_append _ _ _ (noEsc_ljust _ hesc)]
    have h2 : ansiRunGo (⟨false, some n⟩ : AnsiState) false 0 (FORE_RESET ++ b) =
        ansiRunGo ansiDefault false 0 b := rfl
    rw [h2]
    exact ansiRun_noEsc _ _ hb
  have hmid : stripAnsi (code ++ ljust s MAX_LINE_LENGTH ++ FORE_RESET) =
      ljust s MAX_LINE_LENGTH := by
    show stripAnsiGo false ((code ++ ljust s MAX_LINE_LENGTH) ++ FORE_RESET) = _
    rw [List.append_assoc, hstrip,
      stripAnsiGo_noEsc_append _ _ (noEsc_ljust _ hesc)]
    simp [show stripAnsiGo false FORE_RESET = [] from rfl]
  have hstm : ansiRun ansiDefault
      (code ++ ljust s MAX_LINE_LENGTH ++ FORE_RESET) = ansiDefault := by
    have := key [] (by simp)
    rwa [List.append_nil] at this
  refine ⟨⟨_, rfl, by rw [hmid]; exact ljust_length_of_le _ _ hlen⟩,
    ⟨_, rfl, hstm, ?_⟩⟩
  exact key ['│'] (by decide)

/-- A nested-panel line: escape-free interior centered into the outer
width. -/
lemma panel_line_props (inner : Str) (hesc : '\x1b' ∉ inner)
    (hlen : inner.length ≤ MAX_LINE_LENGTH) :
    visible88 (borderize (center inner MAX_LINE_LENGTH)) ∧
      styleReset (borderize (center inner MAX_LINE_LENGTH)) :=
  line_props_noEsc (center inner MAX_LINE_LENGTH) (noEsc_center _ hesc)
    (center_length_of_le _ _ hlen)

/-- A horizontal rule of the rocket panel. -/
lemma rule_line_props (a b : Char) (ha : a ≠ '\x1b') (hb : b ≠ '\x1b') :
    visible88 (borderize (center (a :: List.replicate CHART_WIDTH '─' ++ [b])
        MAX_LINE_LENGTH)) ∧
      styleReset (borderize (center (a :: List.replicate CHART_WIDTH '─' ++ [b])
        MAX_LINE_LENGTH)) := by
  refine panel_line_props _ ?_ ?_
  · intro h
    rcases List.mem_cons.1 h with h1 | h1
    · exact ha h1.symm
    · rcases List.mem_append.1 h1 with h2 | h2
      · exact absurd (List.eq_of_mem_replicate h2) (by decide)
      · exact hb (List.mem_singleton.1 h2).symm
  · simp [CHART_WIDTH, MAX_LINE_LENGTH]

/-- The title row of the rocket panel. -/
lemma title_line_props (nm : Str) (hesc : '\x1b' ∉ nm)
    (hlen : nm.length ≤ CHART_WIDTH) :
    visible88 (borderize (center ('│' :: center nm CHART_WIDTH ++ ['│'])
        MAX_LINE_LENGTH)) ∧
      styleReset (borderize (center ('│' :: center nm CHART_WIDTH ++ ['│'])
        MAX_LINE_LENGTH)) := by
  refine panel_line_props _ ?_ ?_
  · intro h
    rcases List.mem_cons.1 h with h1 | h1
    · exact absurd h1.symm (by decide)
    · rcases List.mem_append.1 h1 with h2 | h2
      · exact noEsc_center _ hesc h2
      · exact absurd (List.mem_singleton.1 h2).symm (by decide)
  · simp only [List.length_cons, List.length_append,
      center_length_of_le _ _ hlen, List.length_singleton]
    decide

/-- A data row of the rocket panel, with both cell texts fitting their
half-width. -/
lemma row_line_props (L R : Str) (hL : L.length ≤ CHART_WIDTH / 2)
    (hR : R.length ≤ CHART_WIDTH / 2) (heL : '\x1b' ∉ L) (heR : '\x1b' ∉ R) :
    visible88 (generateChartLine L R) ∧ styleReset (generateChartLine L R) := by
  unfold generateChartLine
  have hrow : (center L (CHART_WIDTH / 2) ++ '│' :: center R (CHART_WIDTH / 2)).length
      = CHART_WIDTH := by
    simp only [List.length_append, List.length_cons,
      center_length_of_le _ _ hL, center_length_of_le _ _ hR]
    decide
  refine panel_line_props _ ?_ ?_
  · intro h
    rcases List.mem_cons.1 h with h1 | h1
    · exact absurd h1.symm (by decide)
    · rcases List.mem_append.1 h1 with h2 | h2
      · refine noEsc_center (s := center L (CHART_WIDTH / 2) ++
          '│' :: center R (CHART_WIDTH / 2)) CHART_WIDTH ?_ h2
        intro h4
        rcases List.mem_append.1 h4 with h5 | h5
        · exact noEsc_center _ heL h5
        · rcases List.mem_cons.1 h5 with h6 | h6
          · exact absurd h6.symm (by decide)
          · exact noEsc_center _ heR h6
      · exact absurd (List.mem_singleton.1 h2).symm (by decide)
  · simp only [List.length_cons, List.length_append,
      center_length_of_le _ _ (le_of_eq hrow), List.length_singleton]
    decide

/-! ### Record-level hypotheses for the width and styling invariants -/

/-- The unwrapped fields of an event render within the interior width: the
location fits `W`, the indented date line fits `W`, and the indented type
line fits `W`. -/
def eventFits (e : Event) : Prop :=
  e.location.length ≤ MAX_LINE_LENGTH ∧
  ("    ".data ++ e.mission_date).length ≤ MAX_LINE_LENGTH ∧
  ("    Event Type: ".data ++ e.mission_type).length ≤ MAX_LINE_LENGTH

/-- No event field contains a raw escape character. -/
def eventNoEsc (e : Event) : Prop :=
  '\x1b' ∉ e.mission_name ∧ '\x1b' ∉ e.location ∧ '\x1b' ∉ e.mission_date ∧
  '\x1b' ∉ e.mission_description ∧ '\x1b' ∉ e.mission_type

/-- The unwrapped fields of a launch render within the interior width. -/
def launchFits (l : Launch) : Prop :=
  l.location.length ≤ MAX_LINE_LENGTH ∧
  ("    ".data ++ l.mission_date).length ≤ MAX_LINE_LENGTH ∧
  ("    Launch Type: ".data ++ l.mission_type).length ≤ MAX_LINE_LENGTH

/-- No launch field contains a raw escape character. -/
def launchNoEsc (l : Launch) : Prop :=
  '\x1b' ∉ l.mission_name ∧ '\x1b' ∉ l.location ∧ '\x1b' ∉ l.mission_date ∧
  '\x1b' ∉ l.mission_description ∧ '\x1b' ∉ l.mission_type

/-- The rocket name fits the chart width and each rendered cell text fits
its half-width. -/
def rocketFits (r : Rocket) : Prop :=
  r.name.length ≤ CHART_WIDTH ∧
  ("Height: ".data ++ r.height ++ " m".data).length ≤ CHART_WIDTH / 2 ∧
  ("Mass to LEO: ".data ++ r.payload_leo ++ " kg".data).length ≤ CHART_WIDTH / 2 ∧
  ("Max Stages ".data ++ r.max_stages).length ≤ CHART_WIDTH / 2 ∧
  ("Liftoff Thrust: ".data ++ r.liftoff_thrust ++ " kN".data).length ≤ CHART_WIDTH / 2 ∧
  ("Mass to GTO: ".data ++ r.payload_gto ++ " kg".data).length ≤ CHART_WIDTH / 2 ∧
  ("Liftoff Mass: ".data ++ r.liftoff_mass ++ " Tonnes".data).length ≤ CHART_WIDTH / 2 ∧
  ("Launch Successes: ".data ++ r.successful_launches).length ≤ CHART_WIDTH / 2 ∧
  ("Maiden Flight: ".data ++ r.maiden_flight_date).length ≤ CHART_WIDTH / 2 ∧
  ("Consecutive Successes: ".data ++ r.consecutive_successful_launches).length ≤ CHART_WIDTH / 2 ∧
  ("Failed Launches: ".data ++ r.failed_launches).length ≤ CHART_WIDTH / 2

/-- No rocket field contains a raw escape character. -/
def rocketNoEsc (r : Rocket) : Prop :=
  '\x1b' ∉ r.name ∧ '\x1b' ∉ r.payload_leo ∧ '\x1b' ∉ r.payload_gto ∧
  '\x1b' ∉ r.liftoff_thrust ∧ '\x1b' ∉ r.liftoff_mass ∧ '\x1b' ∉ r.max_stages ∧
  '\x1b' ∉ r.height ∧ '\x1b' ∉ r.successful_launches ∧
  '\x1b' ∉ r.consecutive_successful_launches ∧ '\x1b' ∉ r.failed_launches ∧
  '\x1b' ∉ r.maiden_flight_date

/-- Every line of the rocket panel is width-correct and style-safe when the
fields fit and contain no escapes. -/
lemma rocket_display_props (r : Rocket) (hf : rocketFits r)
    (he : rocketNoEsc r) :
    ∀ line ∈ Rocket.display r, visible88 line ∧ styleReset line := by
  obtain ⟨hf1, hf2, hf3, hf4, hf5, hf6, hf7, hf8, hf9, hf10, hf11⟩ := hf
  obtain ⟨he1, he2, he3, he4, he5, he6, he7, he8, he9, he10, he11⟩ := he
  have hcell : ∀ (a f b : Str), '\x1b' ∉ a → '\x1b' ∉ f →
      '\x1b' ∉ b → '\x1b' ∉ a ++ f ++ b :=
    fun a f b ha hfq hb => noEsc_append (noEsc_append ha hfq) hb
  intro line hline
  simp only [Rocket.display, INTER_CELL_DIVIDER, List.mem_cons,
    List.not_mem_nil, or_false] at hline
  rcases hline with rfl | rfl | rfl | rfl | rfl | rfl | rfl | rfl | rfl | rfl | rfl | rfl | rfl
  · exact rule_line_props '┌' '┐' (by decide) (by decide)
  · exact title_line_props r.name he1 hf1
  · exact rule_line_props '├' '┤' (by decide) (by decide)
  · exact row_line_props _ _ hf2 hf3 (hcell _ _ _ (by decide) he7 (by decide))
      (hcell _ _ _ (by decide) he2 (by decide))
  · exact rule_line_props '├' '┤' (by decide) (by decide)
  · exact row_line_props _ _ hf4 hf5 (noEsc_append (by decide) he6)
      (hcell _ _ _ (by decide) he4 (by decide))
  · exact rule_line_props '├' '┤' (by decide) (by decide)
  · exact row_line_props _ _ hf6 hf7 (hcell _ _ _ (by decide) he3 (by decide))
      (hcell _ _ _ (by decide) he5 (by decide))
  · exact rule_line_props '├' '┤' (by decide) (by decide)
  · exact row_line_props _ _ hf8 hf9 (noEsc_append (by decide) he8)
      (noEsc_append (by decide) he11)
  · exact rule_line_props '├' '┤' (by decide) (by decide)
  · exact row_line_props _ _ hf10 hf11 (noEsc_append (by decide) he9)
      (noEsc_append (by decide) he10)
  · exact rule_line_props '└' '┘' (by decide) (by decide)

/-! ### Style safety without width hypotheses -/

/-- Any escape-free interior is style-safe, whatever its length. -/
lemma styleReset_borderize_noEsc (mid : Str) (hesc : '\x1b' ∉ mid) :
    styleReset (borderize mid) := by
  refine ⟨mid, rfl, ansiRun_noEsc _ _ hesc, ?_⟩
  show ansiRunGo ansiDefault false 0 ('│' :: mid ++ ['│']) = ansiDefault
  have h1 : ansiRunGo ansiDefault false 0 ('│' :: mid ++ ['│']) =
      ansiRunGo ansiDefault false 0 (mid ++ ['│']) := rfl
  rw [h1, ansiRunGo_noEsc_append _ _ _ hesc]
  rfl

/-- A mission-name line is style-safe for any escape-free wrapped line. -/
lemma styleReset_name (l : Str) (hesc : '\x1b' ∉ l) :
    styleReset (nameLine l) := by
  have key : ∀ b : Str, '\x1b' ∉ b →
      ansiRunGo ansiDefault false 0
        ((BRIGHT ++ CYAN ++ ljust l MAX_LINE_LENGTH ++ RESET_ALL) ++ b) =
        ansiDefault := by
    intro b hb
    have h1 : ansiRunGo ansiDefault false 0
        ((BRIGHT ++ CYAN ++ ljust l MAX_LINE_LENGTH ++ RESET_ALL) ++ b) =
        ansiRunGo ⟨true, some 36⟩ false 0
          ((ljust l MAX_LINE_LENGTH ++ RESET_ALL) ++ b) := rfl
    rw [h1, List.append_assoc,
      ansiRunGo_noEsc_append _ _ _ (noEsc_ljust _ hesc)]
    have h2 : ansiRunGo (⟨true, some 36⟩ : AnsiState) false 0 (RESET_ALL ++ b) =
        ansiRunGo ansiDefault false 0 b := rfl
    rw [h2]
    exact ansiRun_noEsc _ _ hb
  refine ⟨_, rfl, ?_, key ['│'] (by decide)⟩
  have := key [] (by simp)
  rwa [List.append_nil] at this

/-- A colored (cyan/green) line is style-safe for any escape-free text. -/
lemma styleReset_color (n : Nat) (code : Str)
    (hskip : ∀ b : Str,
      ansiRunGo ansiDefault false 0 (code ++ b) =
        ansiRunGo ⟨false, some n⟩ false 0 b)
    (s : Str) (hesc : '\x1b' ∉ s) :
    styleReset (borderize (code ++ ljust s MAX_LINE_LENGTH ++ FORE_RESET)) := by
  have key : ∀ b : Str, '\x1b' ∉ b →
      ansiRunGo ansiDefault false 0
        ((code ++ ljust s MAX_LINE_LENGTH ++ FORE_RESET) ++ b) = ansiDefault := by
    intro b hb
    rw [List.append_assoc, List.append_assoc, hskip,
      ansiRunGo_noEsc_append _ _ _ (noEsc_ljust _ hesc)]
    have h2 : ansiRunGo (⟨false, some n⟩ : AnsiState) false 0 (FORE_RESET ++ b) =
        ansiRunGo ansiDefault false 0 b := rfl
    rw [h2]
    exact ansiRun_noEsc _ _ hb
  refine ⟨_, rfl, ?_, key ['│'] (by decide)⟩
  have := key [] (by simp)
  rwa [List.append_nil] at this

lemma noEsc_ruleInner (a b : Char) (ha : a ≠ '\x1b') (hb : b ≠ '\x1b') :
    '\x1b' ∉ a :: List.replicate CHART_WIDTH '─' ++ [b] := by
  intro h
  rcases List.mem_cons.1 h with h1 | h1
  · exact ha h1.symm
  · rcases List.mem_append.1 h1 with h2 | h2
    · exact absurd (List.eq_of_mem_replicate h2) (by decide)
    · exact hb (List.mem_singleton.1 h2).symm

lemma noEsc_titleInner (nm : Str) (hesc : '\x1b' ∉ nm) :
    '\x1b' ∉ '│' :: center nm CHART_WIDTH ++ ['│'] := by
  intro h
  rcases List.mem_cons.1 h with h1 | h1
  · exact absurd h1.symm (by decide)
  · rcases List.mem_append.1 h1 with h2 | h2
    · exact noEsc_center _ hesc h2
    · exact absurd (List.mem_singleton.1 h2).symm (by decide)

lemma noEsc_rowInner (L R : Str) (heL : '\x1b' ∉ L) (heR : '\x1b' ∉ R) :
    '\x1b' ∉ '│' :: center (center L (CHART_WIDTH / 2) ++
      '│' :: center R (CHART_WIDTH / 2)) CHART_WIDTH ++ ['│'] := by
  intro h
  rcases List.mem_cons.1 h with h1 | h1
  · exact absurd h1.symm (by decide)
  · rcases List.mem_append.1 h1 with h2 | h2
    · refine noEsc_center _ ?_ h2
      intro h4
      rcases List.mem_append.1 h4 with h5 | h5
      · exact noEsc_center _ heL h5
      · rcases List.mem_cons.1 h5 with h6 | h6
        · exact absurd h6.symm (by decide)
        · exact noEsc_center _ heR h6
    · exact absurd (List.mem_singleton.1 h2).symm (by decide)

/-- Every line of the rocket panel is style-safe once the fields contain no
escapes — no width hypotheses are needed. -/
lemma rocket_display_style (r : Rocket) (he : rocketNoEsc r) :
    ∀ line ∈ Rocket.display r, styleReset line := by
  obtain ⟨he1, he2, he3, he4, he5, he6, he7, he8, he9, he10, he11⟩ := he
  have hcell : ∀ (a f b : Str), '\x1b' ∉ a → '\x1b' ∉ f →
      '\x1b' ∉ b → '\x1b' ∉ a ++ f ++ b :=
    fun a f b ha hfq hb => noEsc_append (noEsc_append ha hfq) hb
  have hrow : ∀ (L R : Str), '\x1b' ∉ L → '\x1b' ∉ R →
      styleReset (generateChartLine L R) := by
    intro L R hl hr
    exact styleReset_borderize_noEsc _ (noEsc_center _ (noEsc_rowInner L R hl hr))
  have hrule : ∀ (a b : Char), a ≠ '\x1b' → b ≠ '\x1b' →
      styleReset (borderize (center (a :: List.replicate CHART_WIDTH '─' ++ [b])
        MAX_LINE_LENGTH)) := by
    intro a b ha hb
    exact styleReset_borderize_noEsc _ (noEsc_center _ (noEsc_ruleInner a b ha hb))
  intro line hline
  simp only [Rocket.display, INTER_CELL_DIVIDER, List.mem_cons,
    List.not_mem_nil, or_false] at hline
  rcases hline with rfl | rfl | rfl | rfl | rfl | rfl | rfl | rfl | rfl | rfl | rfl | rfl | rfl
  · exact hrule '┌' '┐' (by decide) (by decide)
  · exact styleReset_borderize_noEsc _ (noEsc_center _ (noEsc_titleInner r.name he1))
  · exact hrule '├' '┤' (by decide) (by decide)
  · exact hrow _ _ (hcell _ _ _ (by decide) he7 (by decide))
      (hcell _ _ _ (by decide) he2 (by decide))
  · exact hrule '├' '┤' (by decide) (by decide)
  · exact hrow _ _ (noEsc_append (by decide) he6)
      (hcell _ _ _ (by decide) he4 (by decide))
  · exact hrule '├' '┤' (by decide) (by decide)
  · exact hrow _ _ (hcell _ _ _ (by decide) he3 (by decide))
      (hcell _ _ _ (by decide) he5 (by decide))
  · exact hrule '├' '┤' (by decide) (by decide)
  · exact hrow _ _ (noEsc_append (by decide) he8)
      (noEsc_append (by decide) he11)
  · exact hrule '├' '┤' (by decide) (by decide)
  · exact hrow _ _ (noEsc_append (by decide) he9)
      (noEsc_append (by decide) he10)
  · exact hrule '└' '┘' (by decide) (by decide)

/-! ### Per-display enumeration of the line properties -/

/-- Width correctness and style safety of every event line, given fitting,
escape-free fields. -/
lemma event_display_props (e : Event) (v : Verbosity) (hf : eventFits e)
    (he : eventNoEsc e) :
    ∀ line ∈ Event.display e v, visible88 line ∧ styleReset line := by
  obtain ⟨hf1, hf2, hf3⟩ := hf
  obtain ⟨he1, he2, he3, he4, he5⟩ := he
  intro line hline
  simp only [Event.display, descLines, List.mem_append, List.mem_map,
    List.mem_cons] at hline
  rcases hline with (⟨wl, hwl, rfl⟩ | rfl | rfl | rfl | rfl | hnil) | hline
  · exact line_props_name wl
      (wrap_noEsc _ _ _ _ he1 (by simp) (by simp) wl hwl)
      (wrap_line_spec _ MAX_LINE_LENGTH [] (by decide) wl hwl).1
  · exact line_props_color 36 CYAN (fun b => rfl) (fun b => rfl)
      e.location he2 hf1
  · exact line_props_noEsc _ (noEsc_replicate _ (by decide)) (by decide)
  · exact line_props_color 32 GREEN (fun b => rfl) (fun b => rfl)
      _ (noEsc_append (by decide) he3) hf2
  · exact line_props_noEsc _
      (noEsc_ljust _ (noEsc_append (by decide) he5))
      (ljust_length_of_le _ _ hf3)
  · exact absurd hnil (List.not_mem_nil _)
  · split at hline
    · rcases List.mem_cons.1 hline with rfl | hline
      · exact line_props_noEsc _ (noEsc_replicate _ (by decide)) (by decide)
      · rcases List.mem_map.1 hline with ⟨wl, hwl, rfl⟩
        exact line_props_noEsc _
          (noEsc_ljust _ (wrap_noEsc _ _ _ _ he4 (by decide) (by decide) wl hwl))
          (ljust_length_of_le _ _
            (wrap_line_spec _ MAX_LINE_LENGTH ind4 (by decide) wl hwl).1)
    · exact absurd hline (List.not_mem_nil _)

/-- Width correctness and style safety of every launch line, given fitting,
escape-free fields (including the nested rocket's). -/
lemma launch_display_props (l : Launch) (v : Verbosity) (hf : launchFits l)
    (he : launchNoEsc l) (hrf : rocketFits l.rocket)
    (hre : rocketNoEsc l.rocket) :
    ∀ line ∈ Launch.display l v, visible88 line ∧ styleReset line := by
  obtain ⟨hf1, hf2, hf3⟩ := hf
  obtain ⟨he1, he2, he3, he4, he5⟩ := he
  intro line hline
  simp only [Launch.display, descLines, List.mem_append, List.mem_map,
    List.mem_cons] at hline
  rcases hline with (⟨wl, hwl, rfl⟩ | rfl | rfl | rfl | rfl | hnil) | hline
  · exact line_props_name wl
      (wrap_noEsc _ _ _ _ he1 (by simp) (by simp) wl hwl)
      (wrap_line_spec _ MAX_LINE_LENGTH [] (by decide) wl hwl).1
  · exact line_props_color 36 CYAN (fun b => rfl) (fun b => rfl)
      l.location he2 hf1
  · exact line_props_noEsc _ (noEsc_replicate _ (by decide)) (by decide)
  · exact line_props_color 32 GREEN (fun b => rfl) (fun b => rfl)
      _ (noEsc_append (by decide) he3) hf2
  · exact line_props_noEsc _
      (noEsc_ljust _ (noEsc_append (by decide) he5))
      (ljust_length_of_le _ _ hf3)
  · exact absurd hnil (List.not_mem_nil _)
  · split at hline
    · rcases List.mem_append.1 hline with hline | hline
      · split at hline
        · rcases List.mem_cons.1 hline with rfl | hline
          · exact line_props_noEsc _ (noEsc_replicate _ (by decide)) (by decide)
          · exact rocket_display_props l.rocket hrf hre line hline
        · exact absurd hline (List.not_mem_nil _)
      · rcases List.mem_cons.1 hline with rfl | hline
        · exact line_props_noEsc _ (noEsc_replicate _ (by decide)) (by decide)
        · rcases List.mem_map.1 hline with ⟨wl, hwl, rfl⟩
          exact line_props_noEsc _
            (noEsc_ljust _ (wrap_noEsc _ _ _ _ he4 (by decide) (by decide) wl hwl))
            (ljust_length_of_le _ _
              (wrap_line_spec _ MAX_LINE_LENGTH ind4 (by decide) wl hwl).1)
    · exact absurd hline (List.not_mem_nil _)

/-- Style safety of every event line, given only escape-free fields. -/
lemma event_display_style (e : Event) (v : Verbosity) (he : eventNoEsc e) :
    ∀ line ∈ Event.display e v, styleReset line := by
  obtain ⟨he1, he2, he3, he4, he5⟩ := he
  intro line hline
  simp only [Event.display, descLines, List.mem_append, List.mem_map,
    List.mem_cons] at hline
  rcases hline with (⟨wl, hwl, rfl⟩ | rfl | rfl | rfl | rfl | hnil) | hline
  · exact styleReset_name wl (wrap_noEsc _ _ _ _ he1 (by simp) (by simp) wl hwl)
  · exact styleReset_color 36 CYAN (fun b => rfl) e.location he2
  · exact styleReset_borderize_noEsc _ (noEsc_replicate _ (by decide))
  · exact styleReset_color 32 GREEN (fun b => rfl) _ (noEsc_append (by decide) he3)
  · exact styleReset_borderize_noEsc _
      (noEsc_ljust _ (noEsc_append (by decide) he5))
  · exact absurd hnil (List.not_mem_nil _)
  · split at hline
    · rcases List.mem_cons.1 hline with rfl | hline
      · exact styleReset_borderize_noEsc _ (noEsc_replicate _ (by decide))
      · rcases List.mem_map.1 hline with ⟨wl, hwl, rfl⟩
        exact styleReset_borderize_noEsc _
          (noEsc_ljust _ (wrap_noEsc _ _ _ _ he4 (by decide) (by decide) wl hwl))
    · exact absurd hline (List.not_mem_nil _)

/-- Style safety of every launch line, given only escape-free fields. -/
lemma launch_display_style (l : Launch) (v : Verbosity) (he : launchNoEsc l)
    (hre : rocketNoEsc l.rocket) :
    ∀ line ∈ Launch.display l v, styleReset line := by
  obtain ⟨he1, he2, he3, he4, he5⟩ := he
  intro line hline
  simp only [Launch.display, descLines, List.mem_append, List.mem_map,
    List.mem_cons] at hline
  rcases hline with (⟨wl, hwl, rfl⟩ | rfl | rfl | rfl | rfl | hnil) | hline
  · exact styleReset_name wl (wrap_noEsc _ _ _ _ he1 (by simp) (by simp) wl hwl)
  · exact styleReset_color 36 CYAN (fun b => rfl) l.location he2
  · exact styleReset_borderize_noEsc _ (noEsc_replicate _ (by decide))
  · exact styleReset_color 32 GREEN (fun b => rfl) _ (noEsc_append (by decide) he3)
  · exact styleReset_borderize_noEsc _
      (noEsc_ljust _ (noEsc_append (by decide) he5))
  · exact absurd hnil (List.not_mem_nil _)
  · split at hline
    · rcases List.mem_append.1 hline with hline | hline
      · split at hline
        · rcases List.mem_cons.1 hline with rfl | hline
          · exact styleReset_borderize_noEsc _ (noEsc_replicate _ (by decide))
          · exact rocket_display_style l.rocket hre line hline
        · exact absurd hline (List.not_mem_nil _)
      · rcases List.mem_cons.1 hline with rfl | hline
        · exact styleReset_borderize_noEsc _ (noEsc_replicate _ (by decide))
        · rcases List.mem_map.1 hline with ⟨wl, hwl, rfl⟩
          exact styleReset_borderize_noEsc _
            (noEsc_ljust _ (wrap_noEsc _ _ _ _ he4 (by decide) (by decide) wl hwl))
    · exact absurd hline (List.not_mem_nil _)

/-! ### Word algebra for whitespace normalization -/

/-- The non-blank chunks, in order: the words carried by a chunk list. -/
def chunkWords (cs : List Chunk) : List Chunk :=
  cs.filter (fun c => !chunkBlank c)

lemma wordsOfGo_word (w : Str) (hw : w.all (fun c => !isWrapWS c) = true) :
    ∀ (cur t : Str), wordsOfGo cur (w ++ t) = wordsOfGo (w.reverse ++ cur) t := by
  induction w with
  | nil => intro cur t; rfl
  | cons c wtl ih =>
    intro cur t
    simp only [List.all_cons, Bool.and_eq_true] at hw
    have hc : ¬ isWrapWS c = true := by
      intro hcc
      rw [hcc] at hw
      exact absurd hw.1 (by decide)
    simp only [List.cons_append, wordsOfGo, List.append_eq, if_neg hc]
    rw [ih hw.2 (c :: cur) t]
    congr 1
    simp [List.reverse_cons, List.append_assoc]

lemma wordsOfGo_ws (a : Str) (ha : a.all isWrapWS = true) (hne : a ≠ []) :
    ∀ (cur t : Str), wordsOfGo cur (a ++ t) =
      (if cur.isEmpty then [] else [cur.reverse]) ++ wordsOfGo [] t := by
  induction a with
  | nil => exact absurd rfl hne
  | cons c atl ih =>
    intro cur t
    simp only [List.all_cons, Bool.and_eq_true] at ha
    simp only [List.cons_append, wordsOfGo, List.append_eq, if_pos ha.1]
    have hrest : wordsOfGo [] (atl ++ t) = wordsOfGo [] t := by
      cases hat : atl with
      | nil => rfl
      | cons a2 t2 =>
        rw [← hat,
          ih ha.2 (by rw [hat]; exact List.cons_ne_nil _ _) [] t]
        rfl
    by_cases hcur : cur.isEmpty = true
    · rw [if_pos hcur, if_pos hcur, hrest, List.nil_append]
    · rw [if_neg hcur, if_neg hcur, hrest]
      rfl

lemma wordsOf_ws_start (a t : Str) (ha : a.all isWrapWS = true) :
    wordsOf (a ++ t) = wordsOf t := by
  cases haa : a with
  | nil => rfl
  | cons c atl =>
    rw [← haa, wordsOf,
      wordsOfGo_ws a ha (by rw [haa]; exact List.cons_ne_nil _ _)]
    rfl

lemma wordsOf_word (c : Str) (hc : c.all (fun d => !isWrapWS d) = true)
    (hne : c ≠ []) : wordsOf c = [c] := by
  have h := wordsOfGo_word c hc [] []
  rw [List.append_nil] at h
  rw [wordsOf, h, List.append_nil, wordsOfGo]
  have hrev : c.reverse.isEmpty = false := by
    cases hr : c.reverse with
    | nil => exact absurd (by rw [← List.reverse_reverse c, hr]; rfl) hne
    | cons d ds => rfl
  rw [hrev, if_neg (by simp), List.reverse_reverse]

lemma wordsOf_word_ws (c x : Str) (hc : c.all (fun d => !isWrapWS d) = true)
    (hne : c ≠ [])
    (hx : x = [] ∨ ∃ hd tl, x = hd :: tl ∧ isWrapWS hd = true) :
    wordsOf (c ++ x) = c :: wordsOf x := by
  rw [wordsOf, wordsOfGo_word c hc [] x, List.append_nil]
  have hrev : c.reverse.isEmpty = false := by
    cases hr : c.reverse with
    | nil => exact absurd (by rw [← List.reverse_reverse c, hr]; rfl) hne
    | cons d ds => rfl
  rcases hx with rfl | ⟨hd, tl, rfl, hhd⟩
  · rw [wordsOfGo, hrev, if_neg (by simp), List.reverse_reverse]
    rfl
  · simp only [wordsOfGo, if_pos hhd, hrev]
    rw [if_neg (by simp), List.reverse_reverse]
    rw [wordsOf, wordsOfGo, if_pos hhd]
    rfl

lemma wordsOfGo_append_sep (b : Str) :
    ∀ (a cur : Str), wordsOfGo cur (a ++ ' ' :: b) =
      wordsOfGo cur a ++ wordsOfGo [] b
  | [], cur => by
    show wordsOfGo cur (' ' :: b) = wordsOfGo cur [] ++ wordsOfGo [] b
    simp only [wordsOfGo]
    rw [if_pos (show isWrapWS ' ' = true by decide)]
    by_cases hcur : cur.isEmpty = true
    · rw [if_pos hcur, if_pos hcur, List.nil_append]
    · rw [if_neg hcur, if_neg hcur]
      rfl
  | c :: atl, cur => by
    simp only [List.cons_append, wordsOfGo, List.append_eq]
    by_cases hc : isWrapWS c = true
    · rw [if_pos hc, if_pos hc]
      by_cases hcur : cur.isEmpty = true
      · rw [if_pos hcur, if_pos hcur]
        exact wordsOfGo_append_sep b atl []
      · rw [if_neg hcur, if_neg hcur, wordsOfGo_append_sep b atl []]
        rfl
    · rw [if_neg hc, if_neg hc]
      exact wordsOfGo_append_sep b atl (c :: cur)

lemma wordsOf_joinSp_cons (l : Str) (ls : List Str) :
    wordsOf (joinSp (l :: ls)) = wordsOf l ++ wordsOf (joinSp ls) := by
  cases ls with
  | nil => simp [joinSp, wordsOf, wordsOfGo]
  | cons l2 ls2 =>
    show wordsOf (l ++ ' ' :: joinSp (l2 :: ls2)) = _
    rw [wordsOf, wordsOfGo_append_sep]
    rfl

/-! ### Whitespace munging preserves the words -/

lemma wordsOfGo_expandtabs :
    ∀ (t : Str) (col : Nat) (cur : Str),
      wordsOfGo cur (expandtabs t col) = wordsOfGo cur t
  | [], _, _ => rfl
  | c :: t, col, cur => by
    unfold expandtabs
    by_cases hc : c = '\t'
    · rw [if_pos hc]
      have hne : List.replicate (8 - col % 8) ' ' ≠ ([] : Str) := by
        have : (1:Nat) ≤ 8 - col % 8 := by omega
        cases hn : 8 - col % 8 with
        | zero => omega
        | succ k => simp [List.replicate_succ]
      rw [wordsOfGo_ws (List.replicate (8 - col % 8) ' ')
        (by rw [List.all_eq_true]
            intro x hx
            rw [List.eq_of_mem_replicate hx]
            decide) hne cur _]
      rw [wordsOfGo_expandtabs t _ []]
      subst hc
      show _ = wordsOfGo cur ('\t' :: t)
      simp only [wordsOfGo]
      rw [if_pos (show isWrapWS '\t' = true by decide)]
      by_cases hcur : cur.isEmpty = true
      · rw [if_pos hcur, if_pos hcur, List.nil_append]
      · rw [if_neg hcur, if_neg hcur]
        rfl
    · rw [if_neg hc]
      by_cases hnr : c = '\n' ∨ c = '\r'
      · rw [if_pos hnr]
        have hcw : isWrapWS c = true := by
          rcases hnr with rfl | rfl <;> decide
        simp only [wordsOfGo, if_pos hcw]
        by_cases hcur : cur.isEmpty = true
        · rw [if_pos hcur, if_pos hcur]
          exact wordsOfGo_expandtabs t 0 []
        · rw [if_neg hcur, if_neg hcur, wordsOfGo_expandtabs t 0 []]
      · rw [if_neg hnr]
        by_cases hcw : isWrapWS c = true
        · simp only [wordsOfGo, if_pos hcw]
          by_cases hcur : cur.isEmpty = true
          · rw [if_pos hcur, if_pos hcur]
            exact wordsOfGo_expandtabs t (col + 1) []
          · rw [if_neg hcur, if_neg hcur, wordsOfGo_expandtabs t (col + 1) []]
        · simp only [wordsOfGo, if_neg hcw]
          exact wordsOfGo_expandtabs t (col + 1) (c :: cur)

lemma wordsOfGo_replaceWS :
    ∀ (t cur : Str), wordsOfGo cur (replaceWS t) = wordsOfGo cur t
  | [], _ => rfl
  | c :: t, cur => by
    show wordsOfGo cur ((if isWrapWS c then ' ' else c) :: replaceWS t) = _
    by_cases hc : isWrapWS c = true
    · rw [if_pos hc]
      simp only [wordsOfGo]
      rw [if_pos (show isWrapWS ' ' = true by decide), if_pos hc]
      by_cases hcur : cur.isEmpty = true
      · rw [if_pos hcur, if_pos hcur]
        exact wordsOfGo_replaceWS t []
      · rw [if_neg hcur, if_neg hcur, wordsOfGo_replaceWS t []]
    · rw [if_neg hc]
      simp only [wordsOfGo, if_neg hc]
      exact wordsOfGo_replaceWS t (c :: cur)

/-- Munging preserves the whitespace-separated words. -/
lemma wordsOf_munge (t : Str) : wordsOf (munge t) = wordsOf t := by
  rw [wordsOf, munge, wordsOfGo_replaceWS, wordsOfGo_expandtabs]
  rfl

/-! ### The splitter on hyphen-free text: maximal class runs -/

lemma hyphenRun_eq_zero {c : Char} (t : Str) (hc : c ≠ '-') :
    hyphenRun (c :: t) = 0 := by
  unfold hyphenRun
  split
  · rename_i heq
    exact absurd (List.cons.inj heq).1 hc
  · rfl

lemma runsGo_eq (b : Bool) :
    ∀ (t cur : Str), runsGo b cur t =
      (cur.reverse ++ t.takeWhile (fun c => isWrapWS c == b)) ::
        runsBy (t.dropWhile (fun c => isWrapWS c == b))
  | [], cur => by simp [runsGo, runsBy]
  | c :: t, cur => by
    simp only [runsGo]
    by_cases hc : isWrapWS c = b
    · rw [if_pos hc, runsGo_eq b t (c :: cur)]
      have hp : (isWrapWS c == b) = true := by rw [hc]; exact beq_self_eq_true b
      simp only [List.takeWhile_cons, List.dropWhile_cons, hp, if_pos]
      congr 1
      simp [List.reverse_cons, List.append_assoc]
    · rw [if_neg hc]
      have hp : (isWrapWS c == b) = false := by
        cases hb : isWrapWS c == b
        · rfl
        · exact absurd (eq_of_beq hb) hc
      simp only [List.takeWhile_cons, List.dropWhile_cons, hp, Bool.false_eq_true,
        if_false, List.append_nil]
      rfl

lemma runsBy_cons (c : Char) (t : Str) :
    runsBy (c :: t) =
      (c :: t.takeWhile (fun d => isWrapWS d == isWrapWS c)) ::
        runsBy (t.dropWhile (fun d => isWrapWS d == isWrapWS c)) := by
  show runsGo (isWrapWS c) [c] t = _
  rw [runsGo_eq]
  rfl

/-- Combined facts about `runsBy`: every run is nonempty and pure, adjacent
runs alternate (one of any two neighbours is blank), and the non-blank runs
are exactly the words of the text. -/
lemma runsBy_spec :
    ∀ (n : Nat) (t : Str), t.length ≤ n →
      (∀ r ∈ runsBy t, r ≠ [] ∧
        (r.all isWrapWS = true ∨ r.all (fun c => !isWrapWS c) = true)) ∧
      List.Chain' (fun a b => chunkBlank a = true ∨ chunkBlank b = true)
        (runsBy t) ∧
      chunkWords (runsBy t) = wordsOf t
  | n, [], _ => by
    refine ⟨by simp [runsBy], by simp [runsBy], ?_⟩
    simp [runsBy, chunkWords, wordsOf, wordsOfGo]
  | 0, c :: t, h => by simp at h
  | n + 1, c :: t, h => by
    have hsub : (t.dropWhile (fun d => isWrapWS d == isWrapWS c)).Sublist t :=
      List.dropWhile_sublist _
    have hlen : (t.dropWhile (fun d => isWrapWS d == isWrapWS c)).length ≤ n := by
      have h1 := hsub.length_le
      simp only [List.length_cons] at h
      omega
    obtain ⟨ihp, ihc, ihw⟩ := runsBy_spec n _ hlen
    have hsplit : c :: t =
        (c :: t.takeWhile (fun d => isWrapWS d == isWrapWS c)) ++
          t.dropWhile (fun d => isWrapWS d == isWrapWS c) := by
      rw [List.cons_append, List.takeWhile_append_dropWhile]
    have hrunpure : ∀ d ∈ c :: t.takeWhile (fun d => isWrapWS d == isWrapWS c),
        isWrapWS d = isWrapWS c := by
      intro d hd
      rcases List.mem_cons.1 hd with rfl | hd
      · rfl
      · have h2 := List.mem_takeWhile_imp hd
        exact eq_of_beq h2
    have hdrop_head : ∀ d rs, t.dropWhile (fun d => isWrapWS d == isWrapWS c) =
        d :: rs → isWrapWS d = !isWrapWS c := by
      intro d rs hd
      have h1 := List.head?_dropWhile_not (fun d => isWrapWS d == isWrapWS c) t
      rw [hd] at h1
      simp only [List.head?_cons, Option.mem_def] at h1
      cases hc1 : isWrapWS c <;> cases hd1 : isWrapWS d
      · rw [hd1, hc1] at h1
        exact absurd h1 (by decide)
      · rfl
      · rfl
      · rw [hd1, hc1] at h1
        exact absurd h1 (by decide)
    refine ⟨?_, ?_, ?_⟩
    · rw [runsBy_cons]
      intro r hr
      rcases List.mem_cons.1 hr with rfl | hr
      · refine ⟨List.cons_ne_nil _ _, ?_⟩
        by_cases hc1 : isWrapWS c = true
        · left
          rw [List.all_eq_true]
          intro d hd
          rw [hrunpure d hd, hc1]
        · have hc0 : isWrapWS c = false := by
            cases hb : isWrapWS c
            · rfl
            · exact absurd hb hc1
          right
          rw [List.all_eq_true]
          intro d hd
          rw [hrunpure d hd, hc0]
          rfl
      · exact ihp r hr
    · rw [runsBy_cons]
      refine List.chain'_cons'.mpr ⟨?_, ihc⟩
      intro y hy
      by_cases hc1 : isWrapWS c = true
      · left
        rw [chunkBlank, List.all_eq_true]
        intro x hx
        rw [hrunpure x hx, hc1]
      · have hc0 : isWrapWS c = false := by
          cases hb : isWrapWS c
          · rfl
          · exact absurd hb hc1
        right
        cases hd : t.dropWhile (fun d => isWrapWS d == isWrapWS c) with
        | nil => rw [hd] at hy; simp [runsBy] at hy
        | cons d rs =>
          rw [hd, runsBy_cons] at hy
          simp only [List.head?_cons, Option.mem_def, Option.some.injEq] at hy
          have hdw : isWrapWS d = true := by
            rw [hdrop_head d rs hd, hc0]
            rfl
          rw [← hy, chunkBlank, List.all_eq_true]
          intro x hx
          rcases List.mem_cons.1 hx with rfl | hx
          · exact hdw
          · have h2 := List.mem_takeWhile_imp hx
            rw [eq_of_beq h2]
            exact hdw
    · rw [runsBy_cons]
      by_cases hc1 : isWrapWS c = true
      · have hblank : chunkBlank
            (c :: t.takeWhile (fun d => isWrapWS d == isWrapWS c)) = true := by
          rw [chunkBlank, List.all_eq_true]
          intro d hd
          rw [hrunpure d hd, hc1]
        rw [chunkWords, List.filter_cons, hblank]
        rw [if_neg (show ¬((!true) = true) by decide)]
        rw [← chunkWords, ihw]
        conv_rhs => rw [hsplit]
        rw [wordsOf_ws_start]
        rw [List.all_eq_true]
        intro d hd
        rw [hrunpure d hd, hc1]
      · have hc0 : isWrapWS c = false := by
          cases hb : isWrapWS c
          · rfl
          · exact absurd hb hc1
        have hblank : chunkBlank
            (c :: t.takeWhile (fun d => isWrapWS d == isWrapWS c)) = false := by
          rw [chunkBlank]
          refine List.all_eq_false.mpr ⟨c, List.mem_cons_self _ _, ?_⟩
          rw [hc0]
          decide
        rw [chunkWords, List.filter_cons, hblank]
        rw [if_pos (show (!false) = true by decide)]
        rw [← chunkWords, ihw]
        conv_rhs => rw [hsplit]
        rw [wordsOf_word_ws]
        · rw [List.all_eq_true]
          intro d hd
          rw [hrunpure d hd, hc0]
          rfl
        · exact List.cons_ne_nil _ _
        · cases hd : t.dropWhile (fun d => isWrapWS d == isWrapWS c) with
          | nil => exact Or.inl rfl
          | cons d rs =>
            refine Or.inr ⟨d, rs, rfl, ?_⟩
            rw [hdrop_head d rs hd, hc0]
            rfl

/-! ### The splitter agrees with the runs on hyphen-free text -/

lemma hyphenBreak_false (a : Str) {c : Char} (r : Str) (hc : c ≠ '-') :
    hyphenBreak a c r = false := by
  unfold hyphenBreak
  simp [hc]

lemma emDashAt_false {prev : Str} {c : Char} {r : Str} (hc : c ≠ '-') :
    emDashAt prev (c :: r) = false := by
  unfold emDashAt
  cases prev with
  | nil => rfl
  | cons p ps =>
    simp [hyphenRun_eq_zero r hc]

lemma scanWord_no_hyphen :
    ∀ (rs acc prev : Str), '-' ∉ rs →
      scanWord acc prev rs =
        ((rs.takeWhile (fun c => !isWrapWS c)).reverse ++ acc,
          rs.dropWhile (fun c => !isWrapWS c))
  | [], acc, prev, _ => by simp [scanWord]
  | c :: rs, acc, prev, h => by
    have hc : c ≠ '-' := fun hcc => h (hcc ▸ List.mem_cons_self _ _)
    have hrs : '-' ∉ rs := fun hcc => h (List.mem_cons_of_mem _ hcc)
    simp only [scanWord, hyphenBreak_false _ _ hc, Bool.false_eq_true, if_false]
    by_cases hws : isWrapWS c = true
    · rw [if_pos hws]
      simp only [List.takeWhile_cons, List.dropWhile_cons, hws]
      simp
    · rw [if_neg hws]
      rw [if_neg]
      · rw [scanWord_no_hyphen rs (c :: acc) prev hrs]
        simp only [List.takeWhile_cons, List.dropWhile_cons]
        have hnw : (!isWrapWS c) = true := by
          cases hb : isWrapWS c
          · rfl
          · exact absurd hb hws
        simp only [hnw, if_pos]
        simp [List.reverse_cons, List.append_assoc]
      · rw [hyphenRun_eq_zero rs hc]
        simp

lemma splitLoop_no_hyphen :
    ∀ (fuel : Nat) (prev rest : Str) (acc : List Str),
      rest.length ≤ fuel → '-' ∉ rest →
      splitLoop fuel prev rest acc = acc.reverse ++ runsBy rest
  | 0, prev, rest, acc, hlen, _ => by
    have hre : rest = [] := by
      cases rest with
      | nil => rfl
      | cons c t => simp at hlen
    subst hre
    simp [splitLoop, runsBy]
  | fuel + 1, prev, [], acc, _, _ => by simp [splitLoop, runsBy]
  | fuel + 1, prev, c :: rs, acc, hlen, h => by
    have hc : c ≠ '-' := fun hcc => h (hcc ▸ List.mem_cons_self _ _)
    have hrs : '-' ∉ rs := fun hcc => h (List.mem_cons_of_mem _ hcc)
    simp only [splitLoop]
    simp only [List.length_cons] at hlen
    by_cases hws : isWrapWS c = true
    · rw [if_pos hws]
      have hsub : (rs.dropWhile isWrapWS).Sublist rs := List.dropWhile_sublist _
      rw [splitLoop_no_hyphen fuel _ _ _
        (le_trans hsub.length_le (by omega))
        (fun hcc => hrs (hsub.mem hcc))]
      rw [runsBy_cons]
      have hpred : (fun d => isWrapWS d == isWrapWS c) = isWrapWS := by
        funext d
        rw [hws]
        cases isWrapWS d <;> rfl
      rw [hpred]
      simp [List.reverse_cons, List.append_assoc]
    · rw [if_neg hws, if_neg (by rw [emDashAt_false hc]; simp)]
      rw [scanWord_no_hyphen rs [c] prev hrs]
      have hsub : (rs.dropWhile (fun d => !isWrapWS d)).Sublist rs :=
        List.dropWhile_sublist _
      rw [splitLoop_no_hyphen fuel _ _ _
        (le_trans hsub.length_le (by omega))
        (fun hcc => hrs (hsub.mem hcc))]
      rw [runsBy_cons]
      have hpred : (fun d => isWrapWS d == isWrapWS c) = fun d => !isWrapWS d := by
        funext d
        have hcf : isWrapWS c = false := by
          cases hb : isWrapWS c
          · rfl
          · exact absurd hb hws
        rw [hcf]
        cases isWrapWS d <;> rfl
      rw [hpred]
      simp [List.reverse_append, List.reverse_reverse, List.reverse_cons,
        List.append_assoc]

/-- On hyphen-free text the `wordsep_re` splitter produces exactly the
maximal whitespace-class runs. -/
lemma splitChunks_no_hyphen (t : Str) (h : '-' ∉ t) :
    splitChunks t = runsBy t := by
  have h1 := splitLoop_no_hyphen t.length [] t [] (le_refl _) h
  simpa [splitChunks] using h1

/-! ### From chunks back to words: the `_wrap_chunks` invariant -/

/-- The invariant a chunk holds during wrapping at effective width `w`:
nonempty, and either all whitespace or a word that fits the width. -/
def goodChunk (w : Nat) (c : Chunk) : Prop :=
  c ≠ [] ∧ (chunkBlank c = true ∨
    (c.all (fun d => !isWrapWS d) = true ∧ c.length ≤ w))

/-- The combined greedy-pull and long-word step of one `_wrap_chunks`
iteration, applied after the leading-whitespace drop. -/
def wrapStepPair (w : Nat) (cs1 : List Chunk) : List Chunk × List Chunk :=
  addLongWord w (greedyPull w 0 cs1).2.1 (greedyPull w 0 cs1).1
    (greedyPull w 0 cs1).2.2

lemma chunkWords_append (a b : List Chunk) :
    chunkWords (a ++ b) = chunkWords a ++ chunkWords b := by
  simp [chunkWords]

lemma chunkWords_cons_blank (c : Chunk) (cl : List Chunk)
    (hb : chunkBlank c = true) : chunkWords (c :: cl) = chunkWords cl := by
  rw [chunkWords, List.filter_cons, hb,
    if_neg (show ¬((!true) = true) by decide)]
  rfl

lemma chunkWords_cons_word (c : Chunk) (cl : List Chunk)
    (hb : chunkBlank c = false) : chunkWords (c :: cl) = c :: chunkWords cl := by
  rw [chunkWords, List.filter_cons, hb,
    if_pos (show (!false) = true by decide)]
  rfl

lemma chunkBlank_eq_false_of_word (c : Chunk) (hne : c ≠ [])
    (hall : c.all (fun d => !isWrapWS d) = true) : chunkBlank c = false := by
  cases c with
  | nil => exact absurd rfl hne
  | cons d t =>
    rw [chunkBlank]
    refine List.all_eq_false.mpr ⟨d, List.mem_cons_self _ _, ?_⟩
    have hd := (List.all_eq_true.mp hall) d (List.mem_cons_self _ _)
    intro hdd
    rw [hdd] at hd
    exact absurd hd (by decide)

/-- Flattening a list of nonempty pure chunks in which no two words are
adjacent yields a string whose words are exactly the non-blank chunks. -/
lemma words_flatten :
    ∀ (cl : List Chunk),
      (∀ c ∈ cl, c ≠ [] ∧
        (c.all isWrapWS = true ∨ c.all (fun d => !isWrapWS d) = true)) →
      List.Chain' (fun a b => chunkBlank a = true ∨ chunkBlank b = true) cl →
      wordsOf cl.flatten = chunkWords cl
  | [], _, _ => by simp [chunkWords, wordsOf, wordsOfGo]
  | c :: cl, hp, hch => by
    have hc := hp c (List.mem_cons_self _ _)
    have hp2 : ∀ x ∈ cl, x ≠ [] ∧
        (x.all isWrapWS = true ∨ x.all (fun d => !isWrapWS d) = true) :=
      fun x hx => hp x (List.mem_cons_of_mem _ hx)
    have hch2 : List.Chain' (fun a b => chunkBlank a = true ∨ chunkBlank b = true)
        cl := hch.tail
    rw [List.flatten_cons]
    rcases hc.2 with hb | hnb
    · have hbb : chunkBlank c = true := hb
      rw [wordsOf_ws_start c cl.flatten hb, words_flatten cl hp2 hch2,
        chunkWords_cons_blank c cl hbb]
    · have hcb : chunkBlank c = false := chunkBlank_eq_false_of_word c hc.1 hnb
      rw [wordsOf_word_ws c cl.flatten hnb hc.1 ?_, words_flatten cl hp2 hch2,
        chunkWords_cons_word c cl hcb]
      cases cl with
      | nil => exact Or.inl rfl
      | cons d cl2 =>
        have hrel := (List.chain'_cons'.mp hch).1 d rfl
        have hdb : chunkBlank d = true := by
          rcases hrel with h1 | h1
          · rw [h1] at hcb
            exact absurd hcb (by decide)
          · exact h1
        have hd := hp d (List.mem_cons_of_mem _ (List.mem_cons_self _ _))
        cases hdc : d with
        | nil => exact absurd hdc hd.1
        | cons e d2 =>
          refine Or.inr ⟨e, d2 ++ cl2.flatten, ?_, ?_⟩
          · rw [List.flatten_cons]
            rfl
          · rw [chunkBlank, hdc, List.all_eq_true] at hdb
            exact hdb e (List.mem_cons_self _ _)

/-! ### Case analyses of the `_wrap_chunks` stages -/

lemma getLastShape :
    ∀ (cl : List Chunk) (la : Chunk), cl.getLast? = some la →
      ∃ l2, cl = l2 ++ [la]
  | [], _, h => by simp at h
  | [c], la, h => by
    rw [List.getLast?_singleton] at h
    exact ⟨[], by rw [Option.some.inj h]; rfl⟩
  | c :: d :: t, la, h => by
    rw [List.getLast?_cons_cons] at h
    obtain ⟨l2, hl⟩ := getLastShape (d :: t) la h
    exact ⟨c :: l2, by rw [hl]; rfl⟩

lemma dropTrailingWS_concat_blank (cl : List Chunk) (p : Chunk)
    (hb : chunkBlank p = true) : dropTrailingWS (cl ++ [p]) = cl := by
  show (match (cl ++ [p]).getLast? with
    | some last => if chunkBlank last then (cl ++ [p]).dropLast else cl ++ [p]
    | none => cl ++ [p]) = cl
  rw [List.getLast?_concat]
  show (if chunkBlank p then (cl ++ [p]).dropLast else cl ++ [p]) = cl
  rw [hb, if_pos rfl, List.dropLast_concat]

lemma dropTrailingWS_cases (cl : List Chunk) :
    dropTrailingWS cl = cl ∨
    ∃ l2 la, cl = l2 ++ [la] ∧ chunkBlank la = true ∧ dropTrailingWS cl = l2 := by
  cases hg : cl.getLast? with
  | none =>
    left
    cases cl with
    | nil => rfl
    | cons c t =>
      rw [List.getLast?_eq_none_iff] at hg
      exact absurd hg (List.cons_ne_nil _ _)
  | some la =>
    obtain ⟨l2, rfl⟩ := getLastShape cl la hg
    by_cases hb : chunkBlank la = true
    · exact Or.inr ⟨l2, la, rfl, hb, dropTrailingWS_concat_blank l2 la hb⟩
    · left
      show (match (l2 ++ [la]).getLast? with
        | some last => if chunkBlank last then (l2 ++ [la]).dropLast
          else l2 ++ [la]
        | none => l2 ++ [la]) = l2 ++ [la]
      rw [List.getLast?_concat]
      show (if chunkBlank la then (l2 ++ [la]).dropLast else l2 ++ [la]) =
        l2 ++ [la]
      rw [if_neg hb]

lemma chunkWords_dropTrailingWS (cl : List Chunk) :
    chunkWords (dropTrailingWS cl) = chunkWords cl := by
  rcases dropTrailingWS_cases cl with he | ⟨l2, la, rfl, hb, he⟩
  · rw [he]
  · have h1 : chunkWords [la] = [] := by
      rw [chunkWords, List.filter_cons, hb,
        if_neg (show ¬((!true) = true) by decide)]
      rfl
    rw [he, chunkWords_append, h1, List.append_nil]

lemma dropTrailingWS_chain {R : Chunk → Chunk → Prop} (cl : List Chunk)
    (h : List.Chain' R cl) : List.Chain' R (dropTrailingWS cl) := by
  rcases dropTrailingWS_cases cl with he | ⟨l2, la, rfl, hb, he⟩
  · rw [he]
    exact h
  · rw [he]
    exact h.left_of_append

lemma dropLeadingWS_cases (started : Bool) (cs : List Chunk) :
    dropLeadingWS started cs = cs ∨
    ∃ c rest, cs = c :: rest ∧ chunkBlank c = true ∧
      dropLeadingWS started cs = rest := by
  cases cs with
  | nil => exact Or.inl rfl
  | cons c rest =>
    by_cases hsc : (started && chunkBlank c) = true
    · right
      have hsc2 := hsc
      rw [Bool.and_eq_true] at hsc2
      refine ⟨c, rest, rfl, hsc2.2, ?_⟩
      show (if started && chunkBlank c then rest else c :: rest) = rest
      rw [if_pos hsc]
    · left
      show (if started && chunkBlank c then rest else c :: rest) = c :: rest
      rw [if_neg hsc]

lemma addLongWord_cases (w curLen : Nat) (taken rem : List Chunk) :
    ((rem = [] ∨ ∃ c rest, rem = c :: rest ∧ c.length ≤ w) ∧
      addLongWord w curLen taken rem = (taken, rem)) ∨
    ∃ c rest, rem = c :: rest ∧ w < c.length ∧
      addLongWord w curLen taken rem =
        (taken ++ [c.take (longWordEnd w curLen c)],
          c.drop (longWordEnd w curLen c) :: rest) := by
  cases rem with
  | nil => exact Or.inl ⟨Or.inl rfl, rfl⟩
  | cons c rest =>
    by_cases hc : w < c.length
    · right
      refine ⟨c, rest, rfl, hc, ?_⟩
      show (if w < c.length then
          (taken ++ [(handleLongWord w curLen c).1],
            (handleLongWord w curLen c).2 :: rest)
        else (taken, c :: rest)) = _
      rw [if_pos hc]
      rfl
    · left
      refine ⟨Or.inr ⟨c, rest, rfl, by omega⟩, ?_⟩
      show (if w < c.length then
          (taken ++ [(handleLongWord w curLen c).1],
            (handleLongWord w curLen c).2 :: rest)
        else (taken, c :: rest)) = _
      rw [if_neg hc]

lemma chunkMeasure_cons (c : Chunk) (cs : List Chunk) :
    chunkMeasure (c :: cs) = c.length + chunkMeasure cs + 1 := by
  simp only [chunkMeasure, sumLens_cons, List.length_cons]
  omega

lemma chunkMeasure_append (a b : List Chunk) :
    chunkMeasure (a ++ b) = sumLens a + a.length + chunkMeasure b := by
  simp only [chunkMeasure, sumLens_append, List.length_append]
  omega

lemma addLongWord_measure_le (w curLen : Nat) (taken rem : List Chunk) :
    chunkMeasure (addLongWord w curLen taken rem).2 ≤ chunkMeasure rem := by
  rcases addLongWord_cases w curLen taken rem with ⟨_, he⟩ | ⟨c, rest, rfl, _, he⟩
  · rw [he]
  · rw [he]
    show chunkMeasure (c.drop (longWordEnd w curLen c) :: rest) ≤ _
    rw [chunkMeasure_cons, chunkMeasure_cons, List.length_drop]
    omega

lemma longWordEnd_pos (w : Nat) (c : Chunk) : 1 ≤ longWordEnd w 0 c := by
  simp only [longWordEnd]
  generalize hsp : (if w < 1 then 1 else w - 0) = sp
  have hsp1 : 1 ≤ sp := by
    rw [← hsp]
    split <;> omega
  split
  · split
    · split
      · omega
      · exact hsp1
    · exact hsp1
  · exact hsp1

lemma longWordEnd_lt (w m : Nat) (c : Chunk) (hw : 1 ≤ w) (hc : w < c.length) :
    longWordEnd w m c < c.length := by
  have h1 := longWordEnd_le w m c hw
  omega

/-! ### The wrapping step preserves the words -/

lemma wrapStep_words (w : Nat) (hw1 : 1 ≤ w) (cs1 : List Chunk)
    (hg : ∀ c ∈ cs1, goodChunk w c)
    (hch : List.Chain' (fun a b => chunkBlank a = true ∨ chunkBlank b = true)
      cs1) :
    (∀ c ∈ (wrapStepPair w cs1).2, goodChunk w c) ∧
    List.Chain' (fun a b => chunkBlank a = true ∨ chunkBlank b = true)
      (wrapStepPair w cs1).2 ∧
    chunkWords (dropTrailingWS (wrapStepPair w cs1).1) ++
      chunkWords (wrapStepPair w cs1).2 = chunkWords cs1 ∧
    (∀ c ∈ dropTrailingWS (wrapStepPair w cs1).1, c ≠ [] ∧
      (c.all isWrapWS = true ∨ c.all (fun d => !isWrapWS d) = true)) ∧
    List.Chain' (fun a b => chunkBlank a = true ∨ chunkBlank b = true)
      (dropTrailingWS (wrapStepPair w cs1).1) := by
  obtain ⟨hsplit, hcl⟩ := greedyPull_decomp w cs1 0
  have hgtaken : ∀ c ∈ (greedyPull w 0 cs1).1, goodChunk w c := fun c hc =>
    hg c (hsplit ▸ List.mem_append_left _ hc)
  have hgrem : ∀ c ∈ (greedyPull w 0 cs1).2.2, goodChunk w c := fun c hc =>
    hg c (hsplit ▸ List.mem_append_right _ hc)
  have hch1 : List.Chain' (fun a b => chunkBlank a = true ∨ chunkBlank b = true)
      ((greedyPull w 0 cs1).1 ++ (greedyPull w 0 cs1).2.2) := by
    rw [hsplit]
    exact hch
  have hchT := hch1.left_of_append
  have hchR := hch1.right_of_append
  have hwordsSplit : chunkWords cs1 =
      chunkWords (greedyPull w 0 cs1).1 ++ chunkWords (greedyPull w 0 cs1).2.2 := by
    conv_lhs => rw [← hsplit]
    rw [chunkWords_append]
  simp only [wrapStepPair]
  rcases addLongWord_cases w (greedyPull w 0 cs1).2.1 (greedyPull w 0 cs1).1
      (greedyPull w 0 cs1).2.2 with ⟨hcond, he⟩ | ⟨c, rest2, hrem, hlong, he⟩
  · have heA : (addLongWord w (greedyPull w 0 cs1).2.1 (greedyPull w 0 cs1).1
        (greedyPull w 0 cs1).2.2).1 = (greedyPull w 0 cs1).1 := by rw [he]
    have heB : (addLongWord w (greedyPull w 0 cs1).2.1 (greedyPull w 0 cs1).1
        (greedyPull w 0 cs1).2.2).2 = (greedyPull w 0 cs1).2.2 := by rw [he]
    rw [heA, heB]
    refine ⟨hgrem, hchR, ?_, ?_, ?_⟩
    · rw [chunkWords_dropTrailingWS, hwordsSplit]
    · intro c hc
      have hcT := dropTrailingWS_subset _ c hc
      have hgc := hgtaken c hcT
      exact ⟨hgc.1, hgc.2.elim Or.inl (fun hx => Or.inr hx.1)⟩
    · exact dropTrailingWS_chain _ hchT
  · have hgc : goodChunk w c :=
      hgrem c (by rw [hrem]; exact List.mem_cons_self _ _)
    have hcb : chunkBlank c = true := by
      rcases hgc.2 with hb | ⟨_, hl⟩
      · exact hb
      · omega
    have hee : longWordEnd w (greedyPull w 0 cs1).2.1 c < c.length :=
      longWordEnd_lt w _ c hw1 hlong
    have hp1b : chunkBlank (c.take (longWordEnd w (greedyPull w 0 cs1).2.1 c)) =
        true := chunkBlank_take c hcb _
    have hp2b : chunkBlank (c.drop (longWordEnd w (greedyPull w 0 cs1).2.1 c)) =
        true := chunkBlank_drop c hcb _
    have hchR2 : List.Chain'
        (fun a b => chunkBlank a = true ∨ chunkBlank b = true) rest2 := by
      have h3 := hchR
      rw [hrem] at h3
      exact h3.tail
    have heA : (addLongWord w (greedyPull w 0 cs1).2.1 (greedyPull w 0 cs1).1
        (greedyPull w 0 cs1).2.2).1 = (greedyPull w 0 cs1).1 ++
        [c.take (longWordEnd w (greedyPull w 0 cs1).2.1 c)] := by rw [he]
    have heB : (addLongWord w (greedyPull w 0 cs1).2.1 (greedyPull w 0 cs1).1
        (greedyPull w 0 cs1).2.2).2 =
        c.drop (longWordEnd w (greedyPull w 0 cs1).2.1 c) :: rest2 := by rw [he]
    rw [heA, heB]
    refine ⟨?_, ?_, ?_, ?_, ?_⟩
    · intro x hx
      rcases List.mem_cons.1 hx with rfl | hx
      · refine ⟨fun hnil => ?_, Or.inl hp2b⟩
        have hlen2 : (c.drop (longWordEnd w (greedyPull w 0 cs1).2.1 c)).length
            = 0 := by
          rw [hnil]
          rfl
        rw [List.length_drop] at hlen2
        omega
      · exact hgrem x (by rw [hrem]; exact List.mem_cons_of_mem _ hx)
    · exact List.chain'_cons'.mpr ⟨fun y hy => Or.inl hp2b, hchR2⟩
    · rw [dropTrailingWS_concat_blank _ _ hp1b,
        chunkWords_cons_blank _ _ hp2b, hwordsSplit, hrem,
        chunkWords_cons_blank _ _ hcb]
    · rw [dropTrailingWS_concat_blank _ _ hp1b]
      intro x hx
      have hgc2 := hgtaken x hx
      exact ⟨hgc2.1, hgc2.2.elim Or.inl (fun h2 => Or.inr h2.1)⟩
    · rw [dropTrailingWS_concat_blank _ _ hp1b]
      exact hchT

/-! ### One `_wrap_chunks` iteration, words and termination -/

lemma nextLine_eq (started : Bool) (width : Nat) (ind : Str) (cs : List Chunk) :
    nextLine started width ind ind cs =
      (if (dropTrailingWS (wrapStepPair (width - ind.length)
            (dropLeadingWS started cs)).1).isEmpty then none
        else some (ind ++ (dropTrailingWS (wrapStepPair (width - ind.length)
            (dropLeadingWS started cs)).1).flatten),
        (wrapStepPair (width - ind.length) (dropLeadingWS started cs)).2) := by
  simp only [nextLine, wrapStepPair, ite_self]

lemma wrapStep_measure (w : Nat) :
    ∀ cs1 : List Chunk, cs1 ≠ [] →
      chunkMeasure (wrapStepPair w cs1).2 < chunkMeasure cs1
  | [], hne => absurd rfl hne
  | c :: rest, _ => by
    by_cases hc : 0 + c.length ≤ w
    · have hg1 : greedyPull w 0 (c :: rest) =
          (c :: (greedyPull w (0 + c.length) rest).1,
            (greedyPull w (0 + c.length) rest).2.1,
            (greedyPull w (0 + c.length) rest).2.2) := by
        simp only [greedyPull]
        rw [if_pos hc]
      have hT : (greedyPull w 0 (c :: rest)).1 =
          c :: (greedyPull w (0 + c.length) rest).1 := by rw [hg1]
      have hL : (greedyPull w 0 (c :: rest)).2.1 =
          (greedyPull w (0 + c.length) rest).2.1 := by rw [hg1]
      have hR : (greedyPull w 0 (c :: rest)).2.2 =
          (greedyPull w (0 + c.length) rest).2.2 := by rw [hg1]
      simp only [wrapStepPair]
      rw [hT, hL, hR]
      have hle := addLongWord_measure_le w (greedyPull w (0 + c.length) rest).2.1
        (c :: (greedyPull w (0 + c.length) rest).1)
        (greedyPull w (0 + c.length) rest).2.2
      obtain ⟨hsplit2, _⟩ := greedyPull_decomp w rest (0 + c.length)
      have hm2 : chunkMeasure rest =
          sumLens (greedyPull w (0 + c.length) rest).1 +
          (greedyPull w (0 + c.length) rest).1.length +
          chunkMeasure (greedyPull w (0 + c.length) rest).2.2 := by
        conv_lhs => rw [← hsplit2]
        exact chunkMeasure_append _ _
      rw [chunkMeasure_cons]
      omega
    · have hcw : w < c.length := by omega
      have hg1 : greedyPull w 0 (c :: rest) = ([], 0, c :: rest) := by
        simp only [greedyPull]
        rw [if_neg hc]
      have hT : (greedyPull w 0 (c :: rest)).1 = [] := by rw [hg1]
      have hL : (greedyPull w 0 (c :: rest)).2.1 = 0 := by rw [hg1]
      have hR : (greedyPull w 0 (c :: rest)).2.2 = c :: rest := by rw [hg1]
      simp only [wrapStepPair]
      rw [hT, hL, hR]
      rcases addLongWord_cases w 0 [] (c :: rest) with ⟨hcond, he⟩ |
        ⟨c2, rest2, hce, hlong2, he⟩
      · rcases hcond with h0 | ⟨c2, rest2, hce, hle2⟩
        · exact absurd h0 (List.cons_ne_nil _ _)
        · obtain ⟨h1, h2⟩ := List.cons.inj hce
          subst h1
          omega
      · obtain ⟨h1, h2⟩ := List.cons.inj hce
        subst h1
        subst h2
        rw [he]
        show chunkMeasure (c.drop (longWordEnd w 0 c) :: rest) <
          chunkMeasure (c :: rest)
        rw [chunkMeasure_cons, chunkMeasure_cons, List.length_drop]
        have hpos := longWordEnd_pos w c
        omega

lemma wrapStep_measure_le (w : Nat) (cs1 : List Chunk) :
    chunkMeasure (wrapStepPair w cs1).2 ≤ chunkMeasure cs1 := by
  cases cs1 with
  | nil => exact Nat.le_refl 0
  | cons c rest =>
    exact le_of_lt (wrapStep_measure w (c :: rest) (List.cons_ne_nil _ _))

lemma nextLine_measure (started : Bool) (width : Nat) (ind : Str)
    (cs : List Chunk) (hne : cs ≠ []) :
    chunkMeasure (nextLine started width ind ind cs).2 < chunkMeasure cs := by
  have h2 : (nextLine started width ind ind cs).2 =
      (wrapStepPair (width - ind.length) (dropLeadingWS started cs)).2 := by
    rw [nextLine_eq]
  rw [h2]
  rcases dropLeadingWS_cases started cs with hd | ⟨c0, rest0, hceq, hb0, hd⟩
  · rw [hd]
    exact wrapStep_measure _ cs hne
  · rw [hd, hceq, chunkMeasure_cons]
    have h3 := wrapStep_measure_le (width - ind.length) rest0
    omega

lemma nextLine_words (started : Bool) (width : Nat) (ind : Str)
    (hind : ind.all isWrapWS = true) (hw : ind.length < width)
    (cs : List Chunk)
    (hg : ∀ c ∈ cs, goodChunk (width - ind.length) c)
    (hch : List.Chain' (fun a b => chunkBlank a = true ∨ chunkBlank b = true)
      cs) :
    (∀ c ∈ (nextLine started width ind ind cs).2,
      goodChunk (width - ind.length) c) ∧
    List.Chain' (fun a b => chunkBlank a = true ∨ chunkBlank b = true)
      (nextLine started width ind ind cs).2 ∧
    ((nextLine started width ind ind cs).1.elim [] wordsOf ++
      chunkWords (nextLine started width ind ind cs).2 = chunkWords cs) := by
  have hw1 : 1 ≤ width - ind.length := by omega
  have hcs1good : ∀ c ∈ dropLeadingWS started cs,
      goodChunk (width - ind.length) c := by
    rcases dropLeadingWS_cases started cs with hd | ⟨c0, rest0, hceq, hb0, hd⟩
    · rw [hd]
      exact hg
    · rw [hd]
      intro c hc
      exact hg c (by rw [hceq]; exact List.mem_cons_of_mem _ hc)
  have hcs1chain : List.Chain'
      (fun a b => chunkBlank a = true ∨ chunkBlank b = true)
      (dropLeadingWS started cs) := by
    rcases dropLeadingWS_cases started cs with hd | ⟨c0, rest0, hceq, hb0, hd⟩
    · rw [hd]
      exact hch
    · rw [hd]
      have h3 := hch
      rw [hceq] at h3
      exact h3.tail
  have hcs1words : chunkWords (dropLeadingWS started cs) = chunkWords cs := by
    rcases dropLeadingWS_cases started cs with hd | ⟨c0, rest0, hceq, hb0, hd⟩
    · rw [hd]
    · rw [hd, hceq, chunkWords_cons_blank _ _ hb0]
  obtain ⟨hga, hcha, hwa, hpure, hchline⟩ :=
    wrapStep_words (width - ind.length) hw1 (dropLeadingWS started cs)
      hcs1good hcs1chain
  have h2 : (nextLine started width ind ind cs).2 =
      (wrapStepPair (width - ind.length) (dropLeadingWS started cs)).2 := by
    rw [nextLine_eq]
  have h1 : (nextLine started width ind ind cs).1 =
      (if (dropTrailingWS (wrapStepPair (width - ind.length)
          (dropLeadingWS started cs)).1).isEmpty then none
        else some (ind ++ (dropTrailingWS (wrapStepPair (width - ind.length)
          (dropLeadingWS started cs)).1).flatten)) := by
    rw [nextLine_eq]
  refine ⟨?_, ?_, ?_⟩
  · rw [h2]
    exact hga
  · rw [h2]
    exact hcha
  · rw [h1, h2]
    by_cases hcur : (dropTrailingWS (wrapStepPair (width - ind.length)
        (dropLeadingWS started cs)).1).isEmpty = true
    · rw [if_pos hcur]
      show [] ++ chunkWords (wrapStepPair (width - ind.length)
        (dropLeadingWS started cs)).2 = chunkWords cs
      rw [List.nil_append, ← hcs1words, ← hwa]
      have hnil : dropTrailingWS (wrapStepPair (width - ind.length)
          (dropLeadingWS started cs)).1 = [] := List.isEmpty_iff.1 hcur
      rw [hnil]
      rfl
    · rw [if_neg hcur]
      show wordsOf (ind ++ (dropTrailingWS (wrapStepPair (width - ind.length)
          (dropLeadingWS started cs)).1).flatten) ++
        chunkWords (wrapStepPair (width - ind.length)
          (dropLeadingWS started cs)).2 = chunkWords cs
      rw [wordsOf_ws_start ind _ hind, words_flatten _ hpure hchline, hwa,
        hcs1words]

/-! ### The full wrap loop preserves the words -/

lemma wrapChunksLoop_words (width : Nat) (ind : Str)
    (hind : ind.all isWrapWS = true) (hw : ind.length < width) :
    ∀ (fuel : Nat) (started : Bool) (cs : List Chunk),
      chunkMeasure cs < fuel →
      (∀ c ∈ cs, goodChunk (width - ind.length) c) →
      List.Chain' (fun a b => chunkBlank a = true ∨ chunkBlank b = true) cs →
      wordsOf (joinSp (wrapChunksLoop width ind ind fuel started cs)) =
        chunkWords cs
  | 0, started, cs, hf, _, _ => absurd hf (by omega)
  | fuel + 1, started, [], _, _, _ => by
    simp [wrapChunksLoop, joinSp, wordsOf, wordsOfGo, chunkWords]
  | fuel + 1, started, c :: cs, hf, hg, hch => by
    obtain ⟨hga, hcha, hwords⟩ :=
      nextLine_words started width ind hind hw (c :: cs) hg hch
    have hm := nextLine_measure started width ind (c :: cs)
      (List.cons_ne_nil _ _)
    have hmc : chunkMeasure (c :: cs) < fuel + 1 := hf
    simp only [wrapChunksLoop]
    cases hr1 : (nextLine started width ind ind (c :: cs)).1 with
    | some l =>
      show wordsOf (joinSp (l :: wrapChunksLoop width ind ind fuel true
        (nextLine started width ind ind (c :: cs)).2)) = chunkWords (c :: cs)
      rw [wordsOf_joinSp_cons,
        wrapChunksLoop_words width ind hind hw fuel true _ (by omega) hga hcha]
      rw [hr1] at hwords
      exact hwords
    | none =>
      show wordsOf (joinSp (wrapChunksLoop width ind ind fuel started
        (nextLine started width ind ind (c :: cs)).2)) = chunkWords (c :: cs)
      rw [wrapChunksLoop_words width ind hind hw fuel started _ (by omega)
        hga hcha]
      rw [hr1] at hwords
      exact hwords

/-- On hyphen-free text whose words all fit the effective width,
`textwrap.wrap` loses no word: joining the wrapped lines with single
spaces reconstructs the text up to whitespace normalization. -/
lemma wrap_words (S : Str) (width : Nat) (ind : Str)
    (hind : ind.all isWrapWS = true) (hw : ind.length < width)
    (hhy : '-' ∉ S)
    (hfit : ∀ wd ∈ wordsOf S, wd.length ≤ width - ind.length) :
    wordsOf (joinSp (wrap S width ind ind)) = wordsOf S := by
  have hhy2 : '-' ∉ munge S := by
    intro hmem
    rcases munge_chars S '-' hmem with h1 | h1
    · exact hhy h1
    · exact absurd h1 (by decide)
  have hsc : splitChunks (munge S) = runsBy (munge S) :=
    splitChunks_no_hyphen _ hhy2
  obtain ⟨hpure, hchain, hcw⟩ := runsBy_spec (munge S).length (munge S)
    (le_refl _)
  have hcw2 : chunkWords (runsBy (munge S)) = wordsOf S := by
    rw [hcw, wordsOf_munge]
  have hgood : ∀ c ∈ runsBy (munge S), goodChunk (width - ind.length) c := by
    intro c hc
    obtain ⟨hne, hp⟩ := hpure c hc
    rcases hp with hb | hnb
    · exact ⟨hne, Or.inl hb⟩
    · refine ⟨hne, Or.inr ⟨hnb, ?_⟩⟩
      have hcb : chunkBlank c = false := chunkBlank_eq_false_of_word c hne hnb
      have hmem : c ∈ chunkWords (runsBy (munge S)) := by
        rw [chunkWords]
        refine List.mem_filter.mpr ⟨hc, ?_⟩
        rw [hcb]
        rfl
      rw [hcw2] at hmem
      exact hfit c hmem
  simp only [wrap]
  rw [hsc]
  rw [wrapChunksLoop_words width ind hind hw _ false _ (by omega) hgood hchain,
    hcw2]

/-! ### Claim C1 -/

/-- C1: for every `Rocket`, the rocket panel emits its lines in exactly the
fixed sequence top rule, title row, then the five data rows separated by
divider rules, then the bottom rule, with each data row made of two
half-width cells of width `C/2` separated by a vertical divider glyph, each
cell centered in its half-width, the two-cell row centered within `C`, the
whole row centered within `W`, and the left|right cell contents Height|Mass
to LEO, Max Stages|Liftoff Thrust, Mass to GTO|Liftoff Mass, Launch
Successes|Maiden Flight, Consecutive Successes|Failed Launches in that
order. -/
theorem C1_rocket_panel_sequence (r : Rocket) :
    Rocket.display r = specRocketPanel r := rfl

/-! ### Claim C2

The panel consists of a top rule, a title row, five data rows, five divider
rules (one after the title and one between each pair of consecutive data
rows) and a bottom rule: `5 + 7 + 1 = 13` interior lines, not `12` as the
claim states. -/

/-- C2 counterexample: the rocket panel of a concrete rocket has 13 interior
lines, not 12. -/
theorem C2_counterexample :
    (Rocket.display exampleRocket).length = 13 ∧
      (Rocket.display exampleRocket).length ≠ 12 := by
  refine ⟨rfl, ?_⟩
  decide

/-- C2 (amended): for every `Rocket`, the rocket panel produced by
`Rocket.display` consists of exactly 13 interior lines (5 data rows + 7
rules + 1 title), regardless of its field values or their textual lengths,
and a `Launch` rendered at verbosity `VERBOSE` adds a filler line plus
exactly these 13 rocket-panel lines between the type line and the
filler-plus-description block. -/
theorem C2_panel_line_count (r : Rocket) (l : Launch) :
    (Rocket.display r).length = 13 ∧
      Launch.display l Verbosity.VERBOSE =
        Launch.display l Verbosity.QUIET
          ++ (FILLER :: Rocket.display l.rocket)
          ++ FILLER :: descLines l.mission_description ∧
      (Rocket.display l.rocket).length = 13 := by
  exact ⟨rfl, launch_display_verbose l, rfl⟩

/-! ### Claim C4 -/

/-- C4: for every `Launch`, `Launch.display` at verbosity `VERBOSE` emits,
after the date/type block (the quiet output, which ends with the
`"Launch Type: "` line) and before the description block, one filler line
followed by the rocket panel of `launch.rocket`; and the
filler-plus-description block is emitted whenever the verbosity is not
`QUIET` (at both `NORMAL` and `VERBOSE`), independently of whether the
rocket panel was shown. -/
theorem C4_launch_verbose_structure (l : Launch) :
    Launch.display l Verbosity.VERBOSE =
      Launch.display l Verbosity.QUIET
        ++ (FILLER :: Rocket.display l.rocket)
        ++ FILLER :: descLines l.mission_description ∧
    Launch.display l Verbosity.NORMAL =
      Launch.display l Verbosity.QUIET
        ++ FILLER :: descLines l.mission_description ∧
    (Launch.display l Verbosity.QUIET).getLast? =
      some (launchTypeLine l.mission_type) :=
  ⟨launch_display_verbose l, launch_display_normal l,
    launch_display_quiet_getLast l⟩

/-! ### Claim C5

For an `Event` the `NORMAL` and `VERBOSE` outputs are identical (the event
renderer only tests `verbosity != QUIET`), so the chain of *strict*
in-order line-subsets claimed between `NORMAL` and `VERBOSE` fails for
events; it does hold for launches, and the `QUIET ⊂ NORMAL` link holds for
both. -/

/-- C5 counterexample: for a concrete event, the `NORMAL` and `VERBOSE`
outputs coincide, so the `NORMAL` output is not a *strict* in-order
line-subset of the `VERBOSE` output. -/
theorem C5_counterexample :
    Event.display exampleEvent Verbosity.NORMAL =
        Event.display exampleEvent Verbosity.VERBOSE ∧
      ¬ (List.Sublist (Event.display exampleEvent Verbosity.NORMAL)
            (Event.display exampleEvent Verbosity.VERBOSE) ∧
          Event.display exampleEvent Verbosity.NORMAL ≠
            Event.display exampleEvent Verbosity.VERBOSE) := by
  have h : Event.display exampleEvent Verbosity.NORMAL =
      Event.display exampleEvent Verbosity.VERBOSE := by
    rw [event_display_not_quiet exampleEvent Verbosity.NORMAL (by decide),
      event_display_not_quiet exampleEvent Verbosity.VERBOSE (by decide)]
  exact ⟨h, fun hc => hc.2 h⟩

/-- C5 (amended): for every `Event` and every `Launch`, the `QUIET` output
is a strict in-order line-subset of the `NORMAL` output; the `NORMAL`
output is an in-order line-subset of the `VERBOSE` output, strictly for a
`Launch`, while for an `Event` the `NORMAL` and `VERBOSE` outputs are
identical. -/
theorem C5_verbosity_monotonicity (e : Event) (l : Launch) :
    (List.Sublist (Event.display e Verbosity.QUIET) (Event.display e Verbosity.NORMAL) ∧
      Event.display e Verbosity.QUIET ≠ Event.display e Verbosity.NORMAL) ∧
    Event.display e Verbosity.NORMAL = Event.display e Verbosity.VERBOSE ∧
    (List.Sublist (Launch.display l Verbosity.QUIET) (Launch.display l Verbosity.NORMAL) ∧
      Launch.display l Verbosity.QUIET ≠ Launch.display l Verbosity.NORMAL) ∧
    (List.Sublist (Launch.display l Verbosity.NORMAL) (Launch.display l Verbosity.VERBOSE) ∧
      Launch.display l Verbosity.NORMAL ≠ Launch.display l Verbosity.VERBOSE) := by
  refine ⟨⟨?_, ?_⟩, ?_, ⟨?_, ?_⟩, ⟨?_, ?_⟩⟩
  · rw [event_display_not_quiet e Verbosity.NORMAL (by decide)]
    exact List.sublist_append_left _ _
  · rw [event_display_not_quiet e Verbosity.NORMAL (by decide)]
    intro h
    have h2 := congrArg List.length h
    simp [List.length_append] at h2
  · rw [event_display_not_quiet e Verbosity.NORMAL (by decide),
      event_display_not_quiet e Verbosity.VERBOSE (by decide)]
  · rw [launch_display_normal]
    exact List.sublist_append_left _ _
  · rw [launch_display_normal]
    intro h
    have h2 := congrArg List.length h
    simp [List.length_append] at h2
  · rw [launch_display_normal, launch_display_verbose, List.append_assoc]
    exact List.Sublist.append_left (List.sublist_append_right _ _) _
  · rw [launch_display_normal, launch_display_verbose]
    intro h
    have h2 := congrArg List.length h
    simp [Rocket.display, List.length_append] at h2

/-! ### Claim C3 -/

/-- C3: for every `Event` and every verbosity other than `QUIET`,
`Event.display` emits, after the mission-type line (the last line of the
quiet output), exactly one filler line followed by the word-wrapped
`mission_description` where a 4-space indent is applied to the first
wrapped line and to every continuation line, each wrapped as a bordered
padded line; at verbosity `QUIET` neither the filler nor any description
line is emitted (the output is exactly the quiet header block). -/
theorem C3_event_description_block (e : Event) (v : Verbosity)
    (h : v ≠ Verbosity.QUIET) :
    Event.display e v =
      Event.display e Verbosity.QUIET
        ++ FILLER :: (wrap e.mission_description MAX_LINE_LENGTH ind4 ind4).map
            (fun line => borderize (ljust line MAX_LINE_LENGTH)) ∧
    (Event.display e Verbosity.QUIET).getLast? =
      some (eventTypeLine e.mission_type) ∧
    ∀ line ∈ wrap e.mission_description MAX_LINE_LENGTH ind4 ind4,
      line.take ind4.length = ind4 := by
  refine ⟨event_display_not_quiet e v h, event_display_quiet_getLast e, ?_⟩
  intro line hl
  exact (wrap_line_spec _ MAX_LINE_LENGTH ind4 (by decide) line hl).2

/-- Witness for C3 at the example event and verbosity `NORMAL`. -/
theorem C3_witness :
    Verbosity.NORMAL ≠ Verbosity.QUIET ∧
      (Event.display exampleEvent Verbosity.NORMAL =
        Event.display exampleEvent Verbosity.QUIET
          ++ FILLER ::
            (wrap exampleEvent.mission_description MAX_LINE_LENGTH ind4 ind4).map
              (fun line => borderize (ljust line MAX_LINE_LENGTH)) ∧
      (Event.display exampleEvent Verbosity.QUIET).getLast? =
        some (eventTypeLine exampleEvent.mission_type) ∧
      ∀ line ∈ wrap exampleEvent.mission_description MAX_LINE_LENGTH ind4 ind4,
        line.take ind4.length = ind4) :=
  ⟨by decide, C3_event_description_block exampleEvent Verbosity.NORMAL (by decide)⟩

/-! ### Claim C8 -/

set_option maxRecDepth 40000 in
/-- C8: the example event of spec §8 (one-line mission name, location,
date, description, type) rendered at verbosity `QUIET` produces exactly 5
bordered content lines — one mission-name line, one location line, one
filler line, one date line, one type line — with no filler or description
lines following. -/
theorem C8_example_event_quiet :
    Event.display exampleEvent Verbosity.QUIET =
      [ nameLine "Starlink Group 6-10".data,
        locationLine "Cape Canaveral SFS, FL, USA".data,
        FILLER,
        dateLine "Wed November 01, 2023 02:00 PM UTC".data,
        eventTypeLine "Communications".data ] ∧
    (Event.display exampleEvent Verbosity.QUIET).length = 5 := by
  constructor
  · decide
  · decide

/-! ### Claim C10 -/

/-- C10: for every `Event` or `Launch` whose `mission_name` is empty or
consists only of whitespace, `display` emits zero mission-name lines and
the output begins directly with the location line; and for every record
whose `mission_description` is empty or whitespace-only rendered at a
verbosity other than `QUIET`, the filler line is still emitted but zero
description lines follow it. -/
theorem C10_blank_fields (e : Event) (l : Launch) (v : Verbosity) :
    (e.mission_name.all isWrapWS = true →
      (Event.display e v).head? = some (locationLine e.location)) ∧
    (l.mission_name.all isWrapWS = true →
      (Launch.display l v).head? = some (locationLine l.location)) ∧
    (v ≠ Verbosity.QUIET → e.mission_description.all isWrapWS = true →
      Event.display e v = Event.display e Verbosity.QUIET ++ [FILLER]) ∧
    (l.mission_description.all isWrapWS = true →
      Launch.display l Verbosity.NORMAL =
          Launch.display l Verbosity.QUIET ++ [FILLER] ∧
        Launch.display l Verbosity.VERBOSE =
          Launch.display l Verbosity.QUIET
            ++ (FILLER :: Rocket.display l.rocket) ++ [FILLER]) := by
  refine ⟨?_, ?_, ?_, ?_⟩
  · intro hn
    rw [Event.display, wrap_all_ws _ _ _ _ hn]
    rfl
  · intro hn
    rw [Launch.display, wrap_all_ws _ _ _ _ hn]
    cases v <;> rfl
  · intro hv hd
    rw [event_display_not_quiet e v hv]
    unfold descLines
    rw [wrap_all_ws _ _ _ _ hd]
    rfl
  · intro hd
    constructor
    · rw [launch_display_normal]
      unfold descLines
      rw [wrap_all_ws _ _ _ _ hd]
      rfl
    · rw [launch_display_verbose]
      unfold descLines
      rw [wrap_all_ws _ _ _ _ hd]
      rfl

/-- An event whose mission name and description are whitespace-only. -/
def blankEvent : Event :=
  { mission_name := "  ".data
    location := "Loc".data
    mission_date := "D".data
    mission_description := " ".data
    mission_type := "T".data }

/-- A launch whose mission name and description are whitespace-only. -/
def blankLaunch : Launch :=
  { mission_name := "  ".data
    location := "Loc".data
    mission_date := "D".data
    mission_description := " ".data
    mission_type := "T".data
    rocket := exampleRocket }

/-- Witness for C10: a concrete event and launch with whitespace-only
mission name and description. -/
theorem C10_witness :
    (blankEvent.mission_name.all isWrapWS = true ∧
        blankEvent.mission_description.all isWrapWS = true ∧
        Verbosity.NORMAL ≠ Verbosity.QUIET) ∧
      ((blankEvent.mission_name.all isWrapWS = true →
          (Event.display blankEvent Verbosity.NORMAL).head? =
            some (locationLine blankEvent.location)) ∧
       (blankLaunch.mission_name.all isWrapWS = true →
          (Launch.display blankLaunch Verbosity.NORMAL).head? =
            some (locationLine blankLaunch.location)) ∧
       (Verbosity.NORMAL ≠ Verbosity.QUIET →
          blankEvent.mission_description.all isWrapWS = true →
          Event.display blankEvent Verbosity.NORMAL =
            Event.display blankEvent Verbosity.QUIET ++ [FILLER]) ∧
       (blankLaunch.mission_description.all isWrapWS = true →
          Launch.display blankLaunch Verbosity.NORMAL =
              Launch.display blankLaunch Verbosity.QUIET ++ [FILLER] ∧
            Launch.display blankLaunch Verbosity.VERBOSE =
              Launch.display blankLaunch Verbosity.QUIET
                ++ (FILLER :: Rocket.display blankLaunch.rocket) ++ [FILLER])) :=
  ⟨⟨by decide, by decide, by decide⟩,
    C10_blank_fields blankEvent blankLaunch Verbosity.NORMAL⟩

/-! ### Claim C7

The location line is never wrapped nor truncated, so a location longer than
`W` produces a line whose visible interior exceeds 88 characters; the
claimed exact width therefore needs the unwrapped fields to fit (and the
fields to carry no raw escape characters, which would be consumed by the
escape-stripping of the claim). -/

/-- An event whose location is 89 characters long. -/
def longLocEvent : Event :=
  { mission_name := []
    location := List.replicate 89 'x'
    mission_date := "D".data
    mission_description := "d".data
    mission_type := "T".data }

set_option maxRecDepth 40000 in
/-- C7 counterexample: the location line of an event with an 89-character
location has a 89-character visible interior, not 88. -/
theorem C7_counterexample :
    ∃ line ∈ Event.display longLocEvent Verbosity.QUIET, ¬ visible88 line := by
  refine ⟨locationLine longLocEvent.location, by decide, ?_⟩
  rintro ⟨mid, hmid, hlen⟩
  rw [locationLine, borderize] at hmid
  have h2 := (List.cons.inj hmid).2
  have h3 := List.append_cancel_right h2
  rw [← h3] at hlen
  exact absurd hlen (by decide)

/-- C7 (amended): for every render call on records whose unwrapped fields
fit their widths (location, indented date and type lines within `W`; rocket
name within `C`; every chart cell within `C/2`) and whose fields contain no
raw escape character, every emitted content line consists of the two border
glyphs around an interior of exactly `W = 88` characters once color/style
escape codes are stripped (wrapped lines are left-justified with trailing
padding; panel rows are centered). -/
theorem C7_line_width (e : Event) (l : Launch) (r : Rocket) (v : Verbosity)
    (hef : eventFits e) (hee : eventNoEsc e)
    (hlf : launchFits l) (hle : launchNoEsc l)
    (hlrf : rocketFits l.rocket) (hlre : rocketNoEsc l.rocket)
    (hrf : rocketFits r) (hre : rocketNoEsc r) :
    (∀ line ∈ Event.display e v, visible88 line) ∧
    (∀ line ∈ Launch.display l v, visible88 line) ∧
    (∀ line ∈ Rocket.display r, visible88 line) :=
  ⟨fun line h => (event_display_props e v hef hee line h).1,
   fun line h => (launch_display_props l v hlf hle hlrf hlre line h).1,
   fun line h => (rocket_display_props r hrf hre line h).1⟩

set_option maxRecDepth 100000 in
/-- Witness for C7 at the example records and verbosity `VERBOSE`. -/
theorem C7_witness :
    (eventFits exampleEvent ∧ eventNoEsc exampleEvent ∧
      launchFits exampleLaunch ∧ launchNoEsc exampleLaunch ∧
      rocketFits exampleLaunch.rocket ∧ rocketNoEsc exampleLaunch.rocket ∧
      rocketFits exampleRocket ∧ rocketNoEsc exampleRocket) ∧
    ((∀ line ∈ Event.display exampleEvent Verbosity.VERBOSE, visible88 line) ∧
     (∀ line ∈ Launch.display exampleLaunch Verbosity.VERBOSE, visible88 line) ∧
     (∀ line ∈ Rocket.display exampleRocket, visible88 line)) := by
  have h1 : eventFits exampleEvent := by unfold eventFits; decide
  have h2 : eventNoEsc exampleEvent := by unfold eventNoEsc; decide
  have h3 : launchFits exampleLaunch := by unfold launchFits; decide
  have h4 : launchNoEsc exampleLaunch := by unfold launchNoEsc; decide
  have h5 : rocketFits exampleLaunch.rocket := by unfold rocketFits; decide
  have h6 : rocketNoEsc exampleLaunch.rocket := by unfold rocketNoEsc; decide
  exact ⟨⟨h1, h2, h3, h4, h5, h6, h5, h6⟩,
    C7_line_width exampleEvent exampleLaunch exampleRocket Verbosity.VERBOSE
      h1 h2 h3 h4 h5 h6 h5 h6⟩

/-! ### Claim C9

A text field containing a raw escape sequence is echoed into the line, and
the renderer's per-line reset codes do not undo it (the location line ends
with `Fore.RESET`, which restores the foreground color but not the bold
attribute), so styling can leak past the line boundary.  With escape-free
fields the claim holds. -/

/-- An event whose location smuggles in a raw bold escape sequence. -/
def escEvent : Event :=
  { mission_name := []
    location := "x\x1b[1m".data
    mission_date := "D".data
    mission_description := "d".data
    mission_type := "T".data }

set_option maxRecDepth 40000 in
/-- C9 counterexample: with a raw bold escape inside the location field,
the style state at the end of the location line is not the default — the
bold attribute leaks past the line boundary into the next line. -/
theorem C9_counterexample :
    ∃ line ∈ Event.display escEvent Verbosity.QUIET,
      ansiRun ansiDefault line ≠ ansiDefault := by
  decide

/-- C9 (amended): for every render call on records whose text fields
contain no raw escape character, every color/style escape sequence emitted
within a line begins after the leading border glyph and is reset before the
trailing border glyph, so no border glyph is ever colorized and no style
leaks past a line boundary into the next line (the style state after each
full line is the default state). -/
theorem C9_style_containment (e : Event) (l : Launch) (r : Rocket)
    (v : Verbosity) (hee : eventNoEsc e) (hle : launchNoEsc l)
    (hlre : rocketNoEsc l.rocket) (hre : rocketNoEsc r) :
    (∀ line ∈ Event.display e v, styleReset line) ∧
    (∀ line ∈ Launch.display l v, styleReset line) ∧
    (∀ line ∈ Rocket.display r, styleReset line) :=
  ⟨event_display_style e v hee, launch_display_style l v hle hlre,
   rocket_display_style r hre⟩

set_option maxRecDepth 100000 in
/-- Witness for C9 at the example records and verbosity `VERBOSE`. -/
theorem C9_witness :
    (eventNoEsc exampleEvent ∧ launchNoEsc exampleLaunch ∧
      rocketNoEsc exampleLaunch.rocket ∧ rocketNoEsc exampleRocket) ∧
    ((∀ line ∈ Event.display exampleEvent Verbosity.VERBOSE, styleReset line) ∧
     (∀ line ∈ Launch.display exampleLaunch Verbosity.VERBOSE, styleReset line) ∧
     (∀ line ∈ Rocket.display exampleRocket, styleReset line)) := by
  have h2 : eventNoEsc exampleEvent := by unfold eventNoEsc; decide
  have h4 : launchNoEsc exampleLaunch := by unfold launchNoEsc; decide
  have h6 : rocketNoEsc exampleLaunch.rocket := by unfold rocketNoEsc; decide
  exact ⟨⟨h2, h4, h6, h6⟩,
    C9_style_containment exampleEvent exampleLaunch exampleRocket
      Verbosity.VERBOSE h2 h4 h6 h6⟩


/-! ### Claim C6

The width half of the claim holds unconditionally: every wrapped line
fits the width (`wrap_line_spec`).  The reconstruction half fails when a
word exceeds the width, because `_handle_long_word` breaks the word across
lines and joining the lines with single spaces inserts a space inside it;
it holds on hyphen-free texts whose (whitespace-normalized) words all fit
the effective width. -/

set_option maxRecDepth 100000 in
/-- C6 counterexample: an 89-character word wrapped at width 88 is broken
across two lines, so joining the wrapped lines with single spaces does not
reconstruct the text up to whitespace normalization — it splits the word
in two. -/
theorem C6_counterexample :
    wordsOf (joinSp (wrap (List.replicate 89 'a') MAX_LINE_LENGTH [] [])) ≠
      wordsOf (List.replicate 89 'a') := by
  decide

/-- C6 (amended): for every text `S` wrapped by the renderer at width
`W = 88` with an all-whitespace indent shorter than `W`, every wrapped
line is at most `W` characters long; and if `S` contains no hyphen and
every whitespace-delimited word of `S` fits the effective width
`W - indent`, then joining the wrapped lines with single spaces
reconstructs `S` up to whitespace normalization. -/
theorem C6_wrap_width_and_reconstruction (S ind : Str)
    (hind : ind.all isWrapWS = true) (hlen : ind.length < MAX_LINE_LENGTH) :
    (∀ l ∈ wrap S MAX_LINE_LENGTH ind ind, l.length ≤ MAX_LINE_LENGTH) ∧
    ('-' ∉ S →
      (∀ wd ∈ wordsOf S, wd.length ≤ MAX_LINE_LENGTH - ind.length) →
      wordsOf (joinSp (wrap S MAX_LINE_LENGTH ind ind)) = wordsOf S) := by
  refine ⟨fun l hl => (wrap_line_spec S MAX_LINE_LENGTH ind hlen l hl).1, ?_⟩
  intro hhy hfit
  exact wrap_words S MAX_LINE_LENGTH ind hind hlen hhy hfit

set_option maxRecDepth 10000 in
theorem C6_witness :
    (("    ".data.all isWrapWS = true ∧
        "    ".data.length < MAX_LINE_LENGTH) ∧
      (∀ l ∈ wrap "hello world".data MAX_LINE_LENGTH "    ".data "    ".data,
        l.length ≤ MAX_LINE_LENGTH) ∧
      ('-' ∉ "hello world".data →
        (∀ wd ∈ wordsOf "hello world".data,
          wd.length ≤ MAX_LINE_LENGTH - "    ".data.length) →
        wordsOf (joinSp (wrap "hello world".data MAX_LINE_LENGTH "    ".data
          "    ".data)) = wordsOf "hello world".data)) ∧
    wordsOf (joinSp (wrap "hello world".data MAX_LINE_LENGTH "    ".data
      "    ".data)) = wordsOf "hello world".data :=
  ⟨⟨⟨by decide, by decide⟩,
      C6_wrap_width_and_reconstruction "hello world".data "    ".data
        (by decide) (by decide)⟩,
    by decide⟩

end Nextinspace
